import Mathlib

/-! sup-count-forced: the SUP/PGS stream walker

A shallow embedding of `src/sup-count-forced.cpp`.

The `FILE *` behind an `In_file` is modelled as the content of a seekable
regular file, the offset of the next byte to fetch, and the byte pushed back by
`ungetc` (if any).  Device errors (`ferror`, `ftello`/`fseeko` returning `-1`)
do not occur on such a stream, so the `EX_IOERR` branches are never taken there;
they are in the second half of the definitions, the program on a device that can
fail (`Dev`), which agrees with the first half whenever the device does not fail
(`walk_agree`).

`off_t`, `uintmax_t` and the `uint_fastN_t` types are 64 bits wide (8 bits for
`uint_fast8_t`) on the platform of the program.  The readers return values below
2^8, 2^16 and 2^32, a position is at most the stream length plus 65535, and a
counter grows by at most 255 in an iteration of the walker, of which there are
at most as many as bytes (`counters_fit`): no value wraps on a stream shorter
than 2^56 bytes, and all of them are modelled by `Nat`.
-/

set_option linter.dupNamespace false

namespace SupCountForced

/-- One byte of the input, as returned by `getc` (0..255). -/
abbrev Byte := Fin 256

/-- The calls of `error` with a nonzero status in the source: each one ends the
process.  `MalformedData` carries the three numbers printed by `expect`. -/
inductive Fatal where
  | InputUnavailable
  | IoFailure
  | MalformedData (expected actual offset : Nat)
  | TruncatedStream
  deriving DecidableEq, Repr

deriving instance DecidableEq for Except

/-- Value of `EX_DATAERR` in `sysexits.h`. -/
def EX_DATAERR : Nat := 65

/-- Value of `EX_NOINPUT` in `sysexits.h`. -/
def EX_NOINPUT : Nat := 66

/-- Value of `EX_IOERR` in `sysexits.h`. -/
def EX_IOERR : Nat := 74

/-- The stream state of `struct In_file` (its `handle`; `name` only occurs in
messages). -/
structure In_file where
  content : List Byte
  offset : Nat
  pushed : Option Byte
  deriving DecidableEq, Repr

/-- A freshly opened stream over the given bytes. -/
def In_file.open (bytes : List Byte) : In_file := ⟨bytes, 0, none⟩

/-- The C library `ungetc`: the byte is returned by the next read and the file
position steps back by one. -/
def In_file.ungetc (f : In_file) (c : Byte) : In_file := { f with pushed := some c }

/-- `In_file::get_char`: `getc`, with `none` for `EOF`. -/
def In_file.get_char (f : In_file) : Option Byte × In_file :=
  match f.pushed with
  | some c => (some c, { f with pushed := none })
  | none =>
    match f.content[f.offset]? with
    | some c => (some c, { f with offset := f.offset + 1 })
    | none => (none, f)

/-- `In_file::read_u1`. -/
def In_file.read_u1 (f : In_file) : Except Fatal (Nat × In_file) :=
  match f.get_char with
  | (none, _) => .error .TruncatedStream
  | (some c, f1) => .ok (c.val, f1)

/-- `In_file::read_u2`: `v = read_u1(); v = v << 8 | read_u1();`. -/
def In_file.read_u2 (f : In_file) : Except Fatal (Nat × In_file) := do
  let (v, f1) ← f.read_u1
  let (w, f2) ← f1.read_u1
  pure (v <<< 8 ||| w, f2)

/-- `In_file::read_u4`: `v = read_u2(); v = v << 16 | read_u2();`. -/
def In_file.read_u4 (f : In_file) : Except Fatal (Nat × In_file) := do
  let (v, f1) ← f.read_u2
  let (w, f2) ← f1.read_u2
  pure (v <<< 16 ||| w, f2)

/-- `In_file::pos() const`: `ftello`. -/
def In_file.pos (f : In_file) : Nat :=
  f.offset - (if f.pushed.isSome then 1 else 0)

/-- `In_file::pos( off_t o )`: `fseeko( handle, o, SEEK_SET )`, which also drops
a pushed-back byte. -/
def In_file.pos_set (f : In_file) (o : Nat) : In_file := ⟨f.content, o, none⟩

/-- `In_file::expect`, over the bytes of the string before its terminator. -/
def In_file.expect : List Nat → In_file → Except Fatal In_file
  | [], f => .ok f
  | b :: bs, f =>
    match f.read_u1 with
    | .error e => .error e
    | .ok (c, f1) =>
      if b ≠ c then .error (.MalformedData b c f1.pos) else In_file.expect bs f1

/-- `In_file::more`. -/
def In_file.more (f : In_file) : Bool × In_file :=
  match f.get_char with
  | (none, f1) => (false, f1)
  | (some c, f1) => (true, f1.ungetc c)

/-- The string literal `"PG"`. -/
def magic_PG : List Nat := [0x50, 0x47]

/-- `struct Segment`; `type` holds the raw byte of `enum class Type`. -/
structure Segment where
  time : Nat
  size : Nat
  type : Nat
  deriving DecidableEq, Repr

/-- `Segment::Type::PDS`. -/
def Segment.Type_PDS : Nat := 0x14
/-- `Segment::Type::ODS`. -/
def Segment.Type_ODS : Nat := 0x15
/-- `Segment::Type::PCS`. -/
def Segment.Type_PCS : Nat := 0x16
/-- `Segment::Type::WDS`. -/
def Segment.Type_WDS : Nat := 0x17
/-- `Segment::Type::END`. -/
def Segment.Type_END : Nat := 0x80

/-- `Segment::Segment( In_file &f )`. -/
def Segment.Segment (f : In_file) : Except Fatal (Segment × In_file) := do
  let f1 ← f.expect magic_PG
  let (time, f2) ← f1.read_u4
  let (_, f3) ← f2.read_u4
  let (type, f4) ← f3.read_u1
  let (size, f5) ← f4.read_u2
  pure (⟨time, size, type⟩, f5)

/-- `struct PCS`; the enumerations hold their raw bytes. -/
structure PCS where
  width : Nat
  height : Nat
  comp_id : Nat
  state : Nat
  palette_upd : Nat
  palette_id : Nat
  sprite_cnt : Nat
  deriving DecidableEq, Repr

/-- `PCS::PCS( In_file &f )`. -/
def PCS.PCS (f : In_file) : Except Fatal (PCS × In_file) := do
  let (width, f1) ← f.read_u2
  let (height, f2) ← f1.read_u2
  let (_, f3) ← f2.read_u1
  let (comp_id, f4) ← f3.read_u2
  let (state, f5) ← f4.read_u1
  let (palette_upd, f6) ← f5.read_u1
  let (palette_id, f7) ← f6.read_u1
  let (sprite_cnt, f8) ← f7.read_u1
  pure (⟨width, height, comp_id, state, palette_upd, palette_id, sprite_cnt⟩, f8)

/-- `struct Sprite`; `flag` holds the raw byte of `enum class Flag`. -/
structure Sprite where
  obj_id : Nat
  window_id : Nat
  flag : Nat
  tgt_hpos : Nat
  tgt_vpos : Nat
  src_hpos : Nat
  src_vpos : Nat
  width : Nat
  height : Nat
  deriving DecidableEq, Repr

/-- `Sprite::Flag::forced`. -/
def Sprite.Flag_forced : Nat := 0x40

/-- `Sprite::Sprite( In_file &f )`. -/
def Sprite.Sprite (f : In_file) : Except Fatal (Sprite × In_file) := do
  let (obj_id, f1) ← f.read_u2
  let (window_id, f2) ← f1.read_u1
  let (flag, f3) ← f2.read_u1
  let (tgt_hpos, f4) ← f3.read_u2
  let (tgt_vpos, f5) ← f4.read_u2
  let (src_hpos, f6) ← f5.read_u2
  let (src_vpos, f7) ← f6.read_u2
  let (width, f8) ← f7.read_u2
  let (height, f9) ← f8.read_u2
  pure (⟨obj_id, window_id, flag, tgt_hpos, tgt_vpos, src_hpos, src_vpos, width, height⟩, f9)

/-- The `for( comp_idx = 0; comp_idx < pcs.sprite_cnt; ++comp_idx )` loop of
`sup_count_forced`, by the number of iterations left (`sprite_cnt` is at most
255, so the 8-bit `comp_idx` reaches it without wrapping).  Returns `n_forced`
and the stream. -/
def sprite_loop : Nat → In_file → Nat → Except Fatal (Nat × In_file)
  | 0, f, n_forced => .ok (n_forced, f)
  | k + 1, f, n_forced =>
    match Sprite.Sprite f with
    | .error e => .error e
    | .ok (spr, f1) =>
      sprite_loop k f1 (if spr.flag = Sprite.Flag_forced then n_forced + 1 else n_forced)

/-- The body of the `while` loop of `sup_count_forced`, entered after `more()`
returned true.  Returns the stream, `n_comp` and `n_forced`. -/
def loop_body (f : In_file) (n_comp n_forced : Nat) : Except Fatal (In_file × Nat × Nat) :=
  match Segment.Segment f with
  | .error e => .error e
  | .ok (seg, f1) =>
    let next := f1.pos + seg.size
    if seg.type = Segment.Type_PCS then
      match PCS.PCS f1 with
      | .error e => .error e
      | .ok (pcs, f2) =>
        match sprite_loop pcs.sprite_cnt f2 n_forced with
        | .error e => .error e
        | .ok (n_forced1, f3) => .ok (f3.pos_set next, n_comp + pcs.sprite_cnt, n_forced1)
    else .ok (f1.pos_set next, n_comp, n_forced)

/-- The `while( f.more() )` loop of `sup_count_forced`, with a bound on the
number of iterations: `none` when the bound is used up.  A finished run returns
the two numbers in the order `printf` prints them, `(n_forced, n_comp)`. -/
def walk : Nat → In_file → Nat → Nat → Option (Except Fatal (Nat × Nat))
  | 0, _, _, _ => none
  | fuel + 1, f, n_comp, n_forced =>
    match f.more with
    | (false, _) => some (.ok (n_forced, n_comp))
    | (true, f1) =>
      match loop_body f1 n_comp n_forced with
      | .error e => some (.error e)
      | .ok (f2, n_comp1, n_forced1) => walk fuel f2 n_comp1 n_forced1

/-- `sup_count_forced( In_file &f )`.  Every iteration of the loop starts at a
position inside the stream and ends at least 13 bytes further, so one more
iteration than the stream has bytes is never used up (`walk_total`). -/
def sup_count_forced (f : In_file) : Option (Except Fatal (Nat × Nat)) :=
  walk (f.content.length + 1) f 0 0

/-- The line written by `printf( "%ju %ju\n", n_forced, n_comp )`. -/
def output_line (r : Nat × Nat) : String :=
  toString r.1 ++ " " ++ toString r.2 ++ "\n"

/-- Numeric value of the byte at index `i` of the stream (0 outside it). -/
def byteAt (c : List Byte) (i : Nat) : Nat := (c.getD i 0).val

/-- Big-endian 16-bit value at index `i`. -/
def u16At (c : List Byte) (i : Nat) : Nat := byteAt c i * 256 + byteAt c (i + 1)

/-- Big-endian 32-bit value at index `i`. -/
def u32At (c : List Byte) (i : Nat) : Nat :=
  byteAt c i * 2 ^ 24 + byteAt c (i + 1) * 2 ^ 16 + byteAt c (i + 2) * 2 ^ 8 + byteAt c (i + 3)

/-- What `Segment::Segment` returns on a complete header at offset `o`. -/
def headerAt (c : List Byte) (o : Nat) : Segment :=
  ⟨u32At c (o + 2), u16At c (o + 11), byteAt c (o + 10)⟩

/-- A complete segment header with the magic `"PG"` lies at offset `p`. -/
def HeaderOk (c : List Byte) (p : Nat) : Prop :=
  p + 13 ≤ c.length ∧ byteAt c p = 0x50 ∧ byteAt c (p + 1) = 0x47

instance (c : List Byte) (p : Nat) : Decidable (HeaderOk c p) := by
  unfold HeaderOk; infer_instance

/-- Among `k` consecutive sprite records starting at offset `o` (16 bytes each,
as `Sprite::Sprite` consumes them), the number whose flag byte, the fourth of
the record, is `0x40`. -/
def forcedCount (c : List Byte) (o k : Nat) : Nat :=
  ((List.range k).filter (fun i => byteAt c (o + 16 * i + 3) = 0x40)).length

/-- Offsets of the segment headers met when going from offset `p` through the
stream by the size fields alone: a segment starts wherever bytes remain, and the
next one starts 13 + body size further.  At most `n` offsets are listed. -/
def segmentStarts (c : List Byte) : Nat → Nat → List Nat
  | 0, _ => []
  | n + 1, p =>
    if p < c.length then p :: segmentStarts c n (p + 13 + u16At c (p + 11)) else []

/-- The segments on that path whose type byte is `0x16`. -/
def pcsStarts (c : List Byte) : List Nat :=
  (segmentStarts c c.length 0).filter (fun p => byteAt c (p + 10) = 0x16)

/-- Sum of the sprite count bytes (eleventh byte of the body) of those segments. -/
def specTotal (c : List Byte) : Nat :=
  ((pcsStarts c).map (fun p => byteAt c (p + 23))).sum

/-- Number of sprite records with flag `0x40` among the records that follow the
composition records of those segments. -/
def specForced (c : List Byte) : Nat :=
  ((pcsStarts c).map (fun p => forcedCount c (p + 24) (byteAt c (p + 23)))).sum

/-- The stream of the concrete scenario as the specification lays it out: one
PCS segment with a body of 45 = 11 + 17 * 2 bytes holding the composition record
(sprite count 2) and two sprite records of 17 bytes each, the flag being the
fourth byte of a record, so that the first flag (`0x40`) is byte 27 of the
stream and the second flag (`0x00`) is byte 44; then one END segment with an
empty body.  All other bytes are free. -/
def SpecScenarioStream (c : List Byte) : Prop :=
  c.length = 71 ∧
    HeaderOk c 0 ∧ byteAt c 10 = 0x16 ∧ u16At c 11 = 45 ∧
    byteAt c 23 = 2 ∧ byteAt c 27 = 0x40 ∧ byteAt c 44 = 0x00 ∧
    HeaderOk c 58 ∧ byteAt c 68 = 0x80 ∧ u16At c 69 = 0

/-- A stream of that layout in which byte 43, the window id of the second
17-byte record, is `0x40`. -/
def specScenarioExample : List Byte :=
  [0x50, 0x47, 0, 1, 2, 3, 0, 1, 2, 2, 0x16, 0, 45,
   0x07, 0x80, 0x04, 0x38, 0x10, 0, 1, 0x80, 0, 0, 2,
   0, 0, 0, 0x40, 0, 10, 0, 20, 0, 0, 0, 0, 0, 100, 0, 50, 0,
   0, 1, 0x40, 0x00, 0, 30, 0, 40, 0, 0, 0, 0, 0, 60, 0, 70, 0,
   0x50, 0x47, 0, 1, 2, 4, 0, 1, 2, 3, 0x80, 0, 0]

/-- The scenario with the sprite records laid out as `Sprite::Sprite` reads
them, 16 bytes each (fields of 2, 1, 1 and six times 2 bytes): one PCS segment
with a body of `s` bytes, at least 11 + 16 * 2 = 43, holding the composition
record (sprite count 2) and the two sprite records, whose flags are bytes 27
(`0x40`) and 43 (`0x00`) of the stream, then `s - 43` bytes that belong to no
record; then one END segment with an empty body.  All other bytes are free. -/
def DecodedScenarioStream (s : Nat) (c : List Byte) : Prop :=
  43 ≤ s ∧ c.length = 13 + s + 13 ∧
    HeaderOk c 0 ∧ byteAt c 10 = 0x16 ∧ u16At c 11 = s ∧
    byteAt c 23 = 2 ∧ byteAt c 27 = 0x40 ∧ byteAt c 43 = 0x00 ∧
    HeaderOk c (13 + s) ∧ byteAt c (13 + s + 10) = 0x80 ∧ u16At c (13 + s + 11) = 0

/-- The 16-byte layout with a body of exactly 43 bytes. -/
def scenario43Example : List Byte :=
  [0x50, 0x47, 0, 1, 2, 3, 0, 1, 2, 2, 0x16, 0, 43,
   0x07, 0x80, 0x04, 0x38, 0x10, 0, 1, 0x80, 0, 0, 2,
   0, 0, 0x40, 0x40, 0, 10, 0, 20, 0, 0, 0, 0, 0, 100, 0, 50,
   0, 1, 0x40, 0x00, 0, 30, 0, 40, 0, 0, 0, 0, 0, 60, 0, 70,
   0x50, 0x47, 0, 1, 2, 4, 0, 1, 2, 3, 0x80, 0, 0]

/-- The 16-byte layout with a body of 45 bytes, two of them after the records. -/
def scenarioExample : List Byte :=
  [0x50, 0x47, 0, 1, 2, 3, 0, 1, 2, 2, 0x16, 0, 45,
   0x07, 0x80, 0x04, 0x38, 0x10, 0, 1, 0x80, 0, 0, 2,
   0, 0, 0, 0x40, 0, 10, 0, 20, 0, 0, 0, 0, 0, 100, 0, 50,
   0, 1, 1, 0x00, 0, 30, 0, 40, 0, 0, 0, 0, 0, 60, 0, 70,
   0xff, 0xff,
   0x50, 0x47, 0, 1, 2, 4, 0, 1, 2, 3, 0x80, 0, 0]

/-- The states a stream can be in: a pushed-back byte is the byte just before
the offset (the only `ungetc` of the program, in `more`, pushes back the byte
`getc` just returned). -/
def In_file.wf (f : In_file) : Prop :=
  ∀ b, f.pushed = some b → 0 < f.offset ∧ f.content[f.offset - 1]? = some b

/-- A stream of one END segment with an empty body. -/
def endOnlyExample : List Byte := [0x50, 0x47, 0, 0, 0, 9, 0, 0, 0, 8, 0x80, 0, 0]

/-- A PCS segment with one sprite record and a body of 31 bytes, four more than
its records, followed by an END segment.  The four padding bytes look like the
start of a header. -/
def paddedExample : List Byte :=
  [0x50, 0x47, 0, 0, 0, 1, 0, 0, 0, 1, 0x16, 0, 31,
   0x07, 0x80, 0x04, 0x38, 0x10, 0, 1, 0x80, 0, 0, 1,
   0, 0, 0, 0x40, 0, 10, 0, 20, 0, 0, 0, 0, 0, 100, 0, 50,
   0x50, 0x47, 0x16, 0xff,
   0x50, 0x47, 0, 0, 0, 2, 0, 0, 0, 2, 0x80, 0, 0]

/-- From offset `p` to its end the stream is a sequence of whole segments: each
header is complete with the magic `"PG"`, each declared body is present, and the
body of a PCS segment holds its composition record and its sprite records.  At
most `n` segments are checked. -/
def validFrom (c : List Byte) : Nat → Nat → Bool
  | 0, p => decide (p = c.length)
  | n + 1, p =>
    decide (p = c.length) ||
      (decide (HeaderOk c p) && decide (p + 13 + u16At c (p + 11) ≤ c.length) &&
        (decide (byteAt c (p + 10) ≠ 0x16) ||
          decide (11 + 16 * byteAt c (p + 23) ≤ u16At c (p + 11))) &&
        validFrom c n (p + 13 + u16At c (p + 11)))

/-- A valid stream: whole segments from the first byte to the last. -/
def ValidStream (c : List Byte) : Prop := validFrom c c.length 0 = true

instance (c : List Byte) : Decidable (ValidStream c) := by
  unfold ValidStream; infer_instance

/-- A valid stream of one END segment that declares and holds a body of five
bytes. -/
def endWithBodyExample : List Byte :=
  [0x50, 0x47, 0, 0, 0, 9, 0, 0, 0, 8, 0x80, 0, 5, 1, 2, 3, 4, 5]

/-- A valid stream of one PCS segment whose body of 27 bytes is exactly its
composition record and one sprite record. -/
def pcsOnlyExample : List Byte :=
  [0x50, 0x47, 0, 0, 0, 1, 0, 0, 0, 1, 0x16, 0, 27,
   0x07, 0x80, 0x04, 0x38, 0x10, 0, 1, 0x80, 0, 0, 1,
   0, 0, 0, 0x40, 0, 10, 0, 20, 0, 0, 0, 0, 0, 100, 0, 50]

/-- Sixteen bytes holding one sprite record with flag `0x40`. -/
def sprite16Example : List Byte :=
  [0, 7, 1, 0x40, 0, 10, 0, 20, 0, 30, 0, 40, 0, 50, 0, 60]

/-- The same record followed by one more byte. -/
def sprite17Example : List Byte :=
  [0, 7, 1, 0x40, 0, 10, 0, 20, 0, 30, 0, 40, 0, 50, 0, 60, 0xee]

/-- A stream of one PCS segment with sprite count 0 and a body of exactly its
11-byte composition record. -/
def emptyPcsExample : List Byte :=
  [0x50, 0x47, 0, 0, 0, 1, 0, 0, 0, 1, 0x16, 0, 11,
   0x07, 0x80, 0x04, 0x38, 0x10, 0, 1, 0x80, 0, 0, 0]

/-- The flag bytes of all sprite records decoded on the walker's path, in the
order they are decoded: for each PCS segment, the fourth byte of each of the
`sprite_count` 16-byte records after its composition record. -/
def decodedFlags (c : List Byte) : List Nat :=
  (pcsStarts c).flatMap (fun q =>
    (List.range (byteAt c (q + 23))).map (fun i => byteAt c (q + 24 + 16 * i + 3)))

/-- A stream of one PCS segment with two sprite records whose flag bytes, `0x41`
and `0xC0`, have bit `0x40` set without being equal to `0x40`. -/
def bitFlagExample : List Byte :=
  [0x50, 0x47, 0, 0, 0, 1, 0, 0, 0, 1, 0x16, 0, 43,
   0x07, 0x80, 0x04, 0x38, 0x10, 0, 1, 0x80, 0, 0, 2,
   0, 0, 0, 0x41, 0, 10, 0, 20, 0, 0, 0, 0, 0, 100, 0, 50,
   0, 1, 1, 0xC0, 0, 30, 0, 40, 0, 0, 0, 0, 0, 60, 0, 70]

/-- Segment starts the walker reaches from offset `p`: as `segmentStarts`, but
the list ends with the segment at which the run fails (header incomplete or
without the magic, or records of a PCS segment not all present).  At most `n`
offsets are listed. -/
def visitedStarts (c : List Byte) : Nat → Nat → List Nat
  | 0, _ => []
  | n + 1, p =>
    if p < c.length then
      if HeaderOk c p ∧ (byteAt c (p + 10) = 0x16 → p + 24 + 16 * byteAt c (p + 23) ≤ c.length)
      then p :: visitedStarts c n (p + 13 + u16At c (p + 11))
      else [p]
    else []

/-- The segment starts reached by a run of `sup_count_forced`. -/
def visited (c : List Byte) : List Nat := visitedStarts c (c.length + 1) 0

/-- Index `i` lies inside the declared body of one of the listed segments whose
header decodes with a type byte other than `0x16`. -/
def inSkippedBody (c : List Byte) (l : List Nat) (i : Nat) : Prop :=
  ∃ q ∈ l, HeaderOk c q ∧ byteAt c (q + 10) ≠ 0x16 ∧
    q + 13 ≤ i ∧ i < q + 13 + u16At c (q + 11)

/-- Index `i` lies inside the composition record or the sprite records decoded
for one of the listed segments of type `0x16`. -/
def inDecodedRecords (c : List Byte) (l : List Nat) (i : Nat) : Prop :=
  ∃ q ∈ l, HeaderOk c q ∧ byteAt c (q + 10) = 0x16 ∧
    q + 13 ≤ i ∧ i < q + 24 + 16 * byteAt c (q + 23)

instance (c : List Byte) (l : List Nat) (i : Nat) : Decidable (inSkippedBody c l i) := by
  unfold inSkippedBody; infer_instance

instance (c : List Byte) (l : List Nat) (i : Nat) : Decidable (inDecodedRecords c l i) := by
  unfold inDecodedRecords; infer_instance

/-- A PCS segment that declares an empty body, followed by a segment of the
unrecognised type `0x01` with a body of 14 bytes.  The composition record of
the first segment is decoded from the header of the second (its sprite count
is the type byte `0x01`), and its one sprite record from the size field and the
body of the second; the flag byte is byte 27, the second byte of that body. -/
def overlapExample : List Byte :=
  [0x50, 0x47, 0, 0, 0, 1, 0, 0, 0, 1, 0x16, 0, 0,
   0x50, 0x47, 0, 0, 0, 2, 0, 0, 0, 2, 0x01, 0, 14,
   9, 0x00, 9, 9, 9, 9, 9, 9, 9, 9, 9, 9, 9, 9]

/-- The complete header of an END segment that declares a body of 5 bytes,
with no byte of that body in the stream. -/
def headerOnlyExample : List Byte :=
  [0x50, 0x47, 0, 0, 0, 9, 0, 0, 0, 8, 0x80, 0, 5]

/-- The `for` loop of `sup_count_forced` with its index spelled out:
`comp_idx` is a `uint_fast8_t`, so `++comp_idx` is taken modulo 256.  Besides
`n_forced` and the stream, the final `comp_idx` and the number of times the body
ran are returned; `none` when the bound on the iterations is used up. -/
def sprite_loop_idx (sprite_cnt : Nat) :
    Nat → Nat → Nat → In_file → Nat → Option (Except Fatal (Nat × In_file × Nat × Nat))
  | 0, _, _, _, _ => none
  | fuel + 1, comp_idx, runs, f, n_forced =>
    if comp_idx < sprite_cnt then
      match Sprite.Sprite f with
      | .error e => some (.error e)
      | .ok (spr, f1) =>
        sprite_loop_idx sprite_cnt fuel ((comp_idx + 1) % 256) (runs + 1) f1
          (if spr.flag = Sprite.Flag_forced then n_forced + 1 else n_forced)
    else some (.ok (n_forced, f, comp_idx, runs))

/-- The number of times the body of the `while` loop of `sup_count_forced` is
entered, counted along `walk`. -/
def iterations : Nat → In_file → Nat → Nat → Nat
  | 0, _, _, _ => 0
  | fuel + 1, f, n_comp, n_forced =>
    match f.more with
    | (false, _) => 0
    | (true, f1) =>
      match loop_body f1 n_comp n_forced with
      | .error _ => 1
      | .ok (f2, n_comp1, n_forced1) => 1 + iterations fuel f2 n_comp1 n_forced1

/-! ### The program on a device that can fail

The definitions above are the program on a stream whose reads and seeks always
work.  The following ones add what the C library can answer besides bytes: a
name that cannot be opened, a read that fails, a stream that cannot seek.  They
follow the same source lines, with every call of `error` in place. -/

/-- The end of the process in `error( status, errnum, format, ... )`: the exit
status, and the kind of failure the message reports. -/
structure Exit where
  status : Nat
  cause : Fatal
  deriving DecidableEq, Repr

/-- The glibc function `error` called with a nonzero status: it prints the
message and exits with that status, so it does not return. -/
def error {α : Type} (status : Nat) (cause : Fatal) (_nonzero : status ≠ 0) : Except Exit α :=
  .error ⟨status, cause⟩

/-- What lies behind a `FILE *` besides its bytes: whether `ftello` and `fseeko`
work on it (they return `-1` on a pipe or a terminal), and the offset, if any,
from which reading fails (`getc` returns `EOF` with `ferror` set). -/
structure Dev where
  seekable : Bool
  bad_from : Option Nat
  deriving DecidableEq, Repr

/-- A regular file without read errors. -/
def Dev.healthy (dev : Dev) : Prop := dev.seekable = true ∧ dev.bad_from = none

/-- The three answers of `getc` as `get_char` tells them apart: a byte, `EOF` at
the end of the stream, `EOF` with `ferror` set. -/
inductive Getc where
  | byte (b : Byte)
  | eof
  | failed
  deriving DecidableEq, Repr

/-- Whether the device fails when asked for the byte at offset `o`. -/
def Dev.read_fails (dev : Dev) (o : Nat) : Bool :=
  match dev.bad_from with
  | some k => decide (k ≤ o)
  | none => false

/-- The C library `getc` followed by `ferror`. -/
def Dev.getc (dev : Dev) (f : In_file) : Getc × In_file :=
  match f.pushed with
  | some c => (.byte c, { f with pushed := none })
  | none =>
    if dev.read_fails f.offset then (.failed, f)
    else
      match f.content[f.offset]? with
      | some c => (.byte c, { f with offset := f.offset + 1 })
      | none => (.eof, f)

/-- `In_file::get_char`, with its `EX_IOERR` branch. -/
def Dev.get_char (dev : Dev) (f : In_file) : Except Exit (Option Byte × In_file) :=
  match dev.getc f with
  | (.failed, _) => error EX_IOERR .IoFailure (by decide)
  | (.eof, f1) => .ok (none, f1)
  | (.byte b, f1) => .ok (some b, f1)

/-- `In_file::read_u1`. -/
def Dev.read_u1 (dev : Dev) (f : In_file) : Except Exit (Nat × In_file) := do
  let (c, f1) ← dev.get_char f
  match c with
  | none => error EX_DATAERR .TruncatedStream (by decide)
  | some b => pure (b.val, f1)

/-- `In_file::read_u2`. -/
def Dev.read_u2 (dev : Dev) (f : In_file) : Except Exit (Nat × In_file) := do
  let (v, f1) ← dev.read_u1 f
  let (w, f2) ← dev.read_u1 f1
  pure (v <<< 8 ||| w, f2)

/-- `In_file::read_u4`. -/
def Dev.read_u4 (dev : Dev) (f : In_file) : Except Exit (Nat × In_file) := do
  let (v, f1) ← dev.read_u2 f
  let (w, f2) ← dev.read_u2 f1
  pure (v <<< 16 ||| w, f2)

/-- `In_file::pos() const`, with its `EX_IOERR` branch. -/
def Dev.pos (dev : Dev) (f : In_file) : Except Exit Nat :=
  if dev.seekable then .ok f.pos else error EX_IOERR .IoFailure (by decide)

/-- `In_file::pos( off_t o )`, with its `EX_IOERR` branch. -/
def Dev.pos_set (dev : Dev) (f : In_file) (o : Nat) : Except Exit In_file :=
  if dev.seekable then .ok (f.pos_set o) else error EX_IOERR .IoFailure (by decide)

/-- `In_file::expect`; the argument `pos()` of `error` is evaluated before the
call. -/
def Dev.expect (dev : Dev) : List Nat → In_file → Except Exit In_file
  | [], f => .ok f
  | b :: bs, f => do
    let (c, f1) ← dev.read_u1 f
    if b ≠ c then
      let o ← dev.pos f1
      error EX_DATAERR (.MalformedData b c o) (by decide)
    else Dev.expect dev bs f1

/-- `In_file::more`. -/
def Dev.more (dev : Dev) (f : In_file) : Except Exit (Bool × In_file) := do
  let (c, f1) ← dev.get_char f
  match c with
  | none => pure (false, f1)
  | some b => pure (true, f1.ungetc b)

/-- `Segment::Segment( In_file &f )`. -/
def Dev.Segment (dev : Dev) (f : In_file) : Except Exit (Segment × In_file) := do
  let f1 ← dev.expect magic_PG f
  let (time, f2) ← dev.read_u4 f1
  let (_, f3) ← dev.read_u4 f2
  let (type, f4) ← dev.read_u1 f3
  let (size, f5) ← dev.read_u2 f4
  pure (⟨time, size, type⟩, f5)

/-- `PCS::PCS( In_file &f )`. -/
def Dev.PCS (dev : Dev) (f : In_file) : Except Exit (PCS × In_file) := do
  let (width, f1) ← dev.read_u2 f
  let (height, f2) ← dev.read_u2 f1
  let (_, f3) ← dev.read_u1 f2
  let (comp_id, f4) ← dev.read_u2 f3
  let (state, f5) ← dev.read_u1 f4
  let (palette_upd, f6) ← dev.read_u1 f5
  let (palette_id, f7) ← dev.read_u1 f6
  let (sprite_cnt, f8) ← dev.read_u1 f7
  pure (⟨width, height, comp_id, state, palette_upd, palette_id, sprite_cnt⟩, f8)

/-- `Sprite::Sprite( In_file &f )`. -/
def Dev.Sprite (dev : Dev) (f : In_file) : Except Exit (Sprite × In_file) := do
  let (obj_id, f1) ← dev.read_u2 f
  let (window_id, f2) ← dev.read_u1 f1
  let (flag, f3) ← dev.read_u1 f2
  let (tgt_hpos, f4) ← dev.read_u2 f3
  let (tgt_vpos, f5) ← dev.read_u2 f4
  let (src_hpos, f6) ← dev.read_u2 f5
  let (src_vpos, f7) ← dev.read_u2 f6
  let (width, f8) ← dev.read_u2 f7
  let (height, f9) ← dev.read_u2 f8
  pure (⟨obj_id, window_id, flag, tgt_hpos, tgt_vpos, src_hpos, src_vpos, width, height⟩, f9)

/-- The `for` loop over the sprite records, as `sprite_loop`. -/
def Dev.sprite_loop (dev : Dev) : Nat → In_file → Nat → Except Exit (Nat × In_file)
  | 0, f, n_forced => .ok (n_forced, f)
  | k + 1, f, n_forced => do
    let (spr, f1) ← dev.Sprite f
    Dev.sprite_loop dev k f1 (if spr.flag = Sprite.Flag_forced then n_forced + 1 else n_forced)

/-- The body of the `while` loop of `sup_count_forced`, as `loop_body`. -/
def Dev.loop_body (dev : Dev) (f : In_file) (n_comp n_forced : Nat) :
    Except Exit (In_file × Nat × Nat) := do
  let (seg, f1) ← dev.Segment f
  let p ← dev.pos f1
  let next := p + seg.size
  if seg.type = Segment.Type_PCS then
    let (pcs, f2) ← dev.PCS f1
    let (n_forced1, f3) ← dev.sprite_loop pcs.sprite_cnt f2 n_forced
    let f4 ← dev.pos_set f3 next
    pure (f4, n_comp + pcs.sprite_cnt, n_forced1)
  else
    let f4 ← dev.pos_set f1 next
    pure (f4, n_comp, n_forced)

/-- The `while( f.more() )` loop of `sup_count_forced`, as `walk`. -/
def Dev.walk (dev : Dev) : Nat → In_file → Nat → Nat → Option (Except Exit (Nat × Nat))
  | 0, _, _, _ => none
  | fuel + 1, f, n_comp, n_forced =>
    match dev.more f with
    | .error x => some (.error x)
    | .ok (false, _) => some (.ok (n_forced, n_comp))
    | .ok (true, f1) =>
      match dev.loop_body f1 n_comp n_forced with
      | .error x => some (.error x)
      | .ok (f2, n_comp1, n_forced1) => Dev.walk dev fuel f2 n_comp1 n_forced1

/-- `sup_count_forced( In_file &f )` on a device. -/
def Dev.sup_count_forced (dev : Dev) (f : In_file) : Option (Except Exit (Nat × Nat)) :=
  dev.walk (f.content.length + 1) f 0 0

/-- `In_file::In_file( char const *name )`: `fopen( name, "rb" )` gives a stream
at offset 0 or fails; `fs` tells which names can be opened and what is behind
them. -/
def In_file.In_file (fs : String → Option (Dev × List Byte)) (name : String) :
    Except Exit (Dev × In_file) :=
  match fs name with
  | none => error EX_NOINPUT .InputUnavailable (by decide)
  | some (dev, bytes) => .ok (dev, In_file.open bytes)

/-- The `while( *++argv )` loop of `main`: the lines printed, and the exit by
`error` if one of the runs ends the process. -/
def main_files (fs : String → Option (Dev × List Byte)) :
    List String → Option (List String × Option Exit)
  | [] => some ([], none)
  | name :: rest =>
    match In_file.In_file fs name with
    | .error x => some ([], some x)
    | .ok (dev, f) =>
      match dev.sup_count_forced f with
      | none => none
      | some (.error x) => some ([], some x)
      | some (.ok r) =>
        match main_files fs rest with
        | none => none
        | some (lines, x) => some (output_line r :: lines, x)

/-- `main`: the named files one after the other when there are arguments,
standard input otherwise. -/
def main (fs : String → Option (Dev × List Byte)) (stdin : Dev × List Byte)
    (args : List String) : Option (List String × Option Exit) :=
  if args ≠ [] then main_files fs args
  else
    match stdin.1.sup_count_forced (In_file.open stdin.2) with
    | none => none
    | some (.error x) => some ([], some x)
    | some (.ok r) => some ([output_line r], none)

/-- The exit status of the process: that of `error`, or 0 when `main` returns. -/
def exit_status : Option Exit → Nat
  | none => 0
  | some x => x.status

/-- A regular file with the given bytes. -/
def regular (bytes : List Byte) : Dev × List Byte := (⟨true, none⟩, bytes)

/-- A pipe with the given bytes: it cannot seek. -/
def pipe (bytes : List Byte) : Dev × List Byte := (⟨false, none⟩, bytes)

/-- A file system for the examples: a good stream, one with a wrong first byte,
one that ends inside the magic, one whose reads fail from offset 5 on, and
nothing else. -/
def exampleFs : String → Option (Dev × List Byte) := fun name =>
  if name = "good.sup" then some (regular scenarioExample)
  else if name = "magic.sup" then some (regular [0x51, 0x47])
  else if name = "short.sup" then some (regular [0x50])
  else if name = "bad-disk.sup" then some (⟨true, some 5⟩, scenarioExample)
  else none

/-- The two kinds of failure reported for the content of the stream. -/
def Fatal.isData (e : Fatal) : Prop :=
  e = .TruncatedStream ∨ ∃ b a o, e = .MalformedData b a o

/-- How a step of the program on a device relates to the same step on a stream
that cannot fail: either the device is not a healthy one and the step ends the
process with `EX_IOERR`, or both give the same value, or both fail with the same
data error, for which the process exits with `EX_DATAERR`. -/
def Agree {α : Type} (dev : Dev) (x : Except Exit α) (y : Except Fatal α) : Prop :=
  (¬ dev.healthy ∧ x = .error ⟨EX_IOERR, .IoFailure⟩) ∨
    match y with
    | .ok a => x = .ok a
    | .error e => x = .error ⟨EX_DATAERR, e⟩ ∧ e.isData

/-! ## The readers in closed form -/

theorem read_u1_at (c : List Byte) (o : Nat) :
    In_file.read_u1 ⟨c, o, none⟩ =
      if o < c.length then .ok (byteAt c o, ⟨c, o + 1, none⟩) else .error .TruncatedStream := by
  unfold In_file.read_u1 In_file.get_char byteAt
  by_cases h : o < c.length
  · simp [h, List.getElem?_eq_getElem, List.getD_eq_getElem]
  · simp [h, List.getElem?_eq_none (Nat.le_of_not_lt h)]

theorem read_u1_pushed (c : List Byte) (o : Nat) (b : Byte) :
    In_file.read_u1 ⟨c, o, some b⟩ = .ok (b.val, ⟨c, o, none⟩) := by
  simp [In_file.read_u1, In_file.get_char]

theorem byteAt_lt (c : List Byte) (i : Nat) : byteAt c i < 256 := (c.getD i 0).isLt

theorem shl8_or (v w : Nat) (hw : w < 256) : v <<< 8 ||| w = v * 256 + w := by
  rw [Nat.shiftLeft_eq, Nat.mul_comm]
  exact (Nat.mul_add_lt_is_or (i := 8) hw v).symm

theorem shl16_or (v w : Nat) (hw : w < 65536) : v <<< 16 ||| w = v * 65536 + w := by
  rw [Nat.shiftLeft_eq, Nat.mul_comm]
  exact (Nat.mul_add_lt_is_or (i := 16) hw v).symm

theorem u16At_lt (c : List Byte) (i : Nat) : u16At c i < 65536 := by
  have h1 := byteAt_lt c i
  have h2 := byteAt_lt c (i + 1)
  unfold u16At
  omega

theorem read_u2_at (c : List Byte) (o : Nat) :
    In_file.read_u2 ⟨c, o, none⟩ =
      if o + 2 ≤ c.length then .ok (u16At c o, ⟨c, o + 2, none⟩)
      else .error .TruncatedStream := by
  unfold In_file.read_u2
  by_cases h1 : o < c.length
  · by_cases h2 : o + 1 < c.length
    · have h3 : o + 2 ≤ c.length := h2
      simp [read_u1_at, h1, h2, h3, bind, Except.bind, pure, Except.pure, u16At,
        shl8_or _ _ (byteAt_lt c (o + 1))]
    · have h3 : ¬ o + 2 ≤ c.length := by omega
      simp [read_u1_at, h1, h2, h3, bind, Except.bind]
  · have h3 : ¬ o + 2 ≤ c.length := by omega
    simp [read_u1_at, h1, h3, bind, Except.bind]

theorem read_u4_at (c : List Byte) (o : Nat) :
    In_file.read_u4 ⟨c, o, none⟩ =
      if o + 4 ≤ c.length then .ok (u32At c o, ⟨c, o + 4, none⟩)
      else .error .TruncatedStream := by
  unfold In_file.read_u4
  by_cases h1 : o + 2 ≤ c.length
  · by_cases h2 : o + 2 + 2 ≤ c.length
    · have h3 : o + 4 ≤ c.length := by omega
      have e := shl16_or (u16At c o) (u16At c (o + 2)) (u16At_lt c (o + 2))
      simp only [read_u2_at, h1, h2, h3, if_true, bind, Except.bind, pure, Except.pure, e]
      simp only [u16At, u32At, Except.ok.injEq, Prod.mk.injEq, In_file.mk.injEq]
      have e3 : o + 2 + 1 = o + 3 := rfl
      rw [e3]
      exact ⟨by omega, trivial⟩
    · have h3 : ¬ o + 4 ≤ c.length := by omega
      simp [read_u2_at, h1, h2, h3, bind, Except.bind]
  · have h3 : ¬ o + 4 ≤ c.length := by omega
    simp [read_u2_at, h1, h3, bind, Except.bind]

theorem bind_read_u1_at {β : Type} (c : List Byte) (o : Nat)
    (k : Nat × In_file → Except Fatal β) :
    (In_file.read_u1 ⟨c, o, none⟩ >>= k) =
      if o + 1 ≤ c.length then k (byteAt c o, ⟨c, o + 1, none⟩)
      else .error .TruncatedStream := by
  rw [read_u1_at]
  by_cases h : o < c.length
  · simp [h, Nat.succ_le_of_lt h, bind, Except.bind]
  · have h2 : ¬ o + 1 ≤ c.length := h
    simp [h, h2, bind, Except.bind]

theorem bind_read_u2_at {β : Type} (c : List Byte) (o : Nat)
    (k : Nat × In_file → Except Fatal β) :
    (In_file.read_u2 ⟨c, o, none⟩ >>= k) =
      if o + 2 ≤ c.length then k (u16At c o, ⟨c, o + 2, none⟩)
      else .error .TruncatedStream := by
  rw [read_u2_at]
  by_cases h : o + 2 ≤ c.length <;> simp [h, bind, Except.bind]

theorem bind_read_u4_at {β : Type} (c : List Byte) (o : Nat)
    (k : Nat × In_file → Except Fatal β) :
    (In_file.read_u4 ⟨c, o, none⟩ >>= k) =
      if o + 4 ≤ c.length then k (u32At c o, ⟨c, o + 4, none⟩)
      else .error .TruncatedStream := by
  rw [read_u4_at]
  by_cases h : o + 4 ≤ c.length <;> simp [h, bind, Except.bind]

theorem ok_bind {α β : Type} (x : α) (k : α → Except Fatal β) :
    (Except.ok x >>= k) = k x := rfl

theorem error_bind {α β : Type} (e : Fatal) (k : α → Except Fatal β) :
    (Except.error e >>= k) = .error e := rfl

theorem PCS_at (c : List Byte) (o : Nat) :
    PCS.PCS ⟨c, o, none⟩ =
      if o + 11 ≤ c.length then
        .ok (⟨u16At c o, u16At c (o + 2), u16At c (o + 5), byteAt c (o + 7), byteAt c (o + 8),
          byteAt c (o + 9), byteAt c (o + 10)⟩, ⟨c, o + 11, none⟩)
      else .error .TruncatedStream := by
  simp only [PCS.PCS, bind_read_u1_at, bind_read_u2_at, Nat.add_assoc, Nat.reduceAdd]
  split_ifs <;> first | rfl | omega

theorem Sprite_at (c : List Byte) (o : Nat) :
    Sprite.Sprite ⟨c, o, none⟩ =
      if o + 16 ≤ c.length then
        .ok (⟨u16At c o, byteAt c (o + 2), byteAt c (o + 3), u16At c (o + 4), u16At c (o + 6),
          u16At c (o + 8), u16At c (o + 10), u16At c (o + 12), u16At c (o + 14)⟩,
          ⟨c, o + 16, none⟩)
      else .error .TruncatedStream := by
  simp only [Sprite.Sprite, bind_read_u1_at, bind_read_u2_at, Nat.add_assoc, Nat.reduceAdd]
  split_ifs <;> first | rfl | omega

theorem expect_PG_at (c : List Byte) (o : Nat) :
    In_file.expect magic_PG ⟨c, o, none⟩ =
      if o + 1 ≤ c.length then
        if byteAt c o = 0x50 then
          if o + 2 ≤ c.length then
            if byteAt c (o + 1) = 0x47 then .ok ⟨c, o + 2, none⟩
            else .error (.MalformedData 0x47 (byteAt c (o + 1)) (o + 2))
          else .error .TruncatedStream
        else .error (.MalformedData 0x50 (byteAt c o) (o + 1))
      else .error .TruncatedStream := by
  have e1 : (o + 1 ≤ c.length) ↔ (o < c.length) := Iff.rfl
  have e2 : (o + 2 ≤ c.length) ↔ (o + 1 < c.length) := Iff.rfl
  simp only [e1, e2]
  by_cases h1 : o < c.length
  · by_cases hb : byteAt c o = 0x50
    · by_cases h2 : o + 1 < c.length
      · by_cases hg : byteAt c (o + 1) = 0x47
        · simp [magic_PG, In_file.expect, read_u1_at, In_file.pos, h1, hb, h2, hg]
        · simp [magic_PG, In_file.expect, read_u1_at, In_file.pos, h1, hb, h2, hg, Ne.symm hg]
      · simp [magic_PG, In_file.expect, read_u1_at, In_file.pos, h1, hb, h2]
    · simp [magic_PG, In_file.expect, read_u1_at, In_file.pos, h1, hb, Ne.symm hb]
  · simp [magic_PG, In_file.expect, read_u1_at, In_file.pos, h1]

theorem Segment_at (c : List Byte) (o : Nat) :
    Segment.Segment ⟨c, o, none⟩ =
      if o + 1 ≤ c.length then
        if byteAt c o = 0x50 then
          if o + 2 ≤ c.length then
            if byteAt c (o + 1) = 0x47 then
              if o + 13 ≤ c.length then .ok (headerAt c o, ⟨c, o + 13, none⟩)
              else .error .TruncatedStream
            else .error (.MalformedData 0x47 (byteAt c (o + 1)) (o + 2))
          else .error .TruncatedStream
        else .error (.MalformedData 0x50 (byteAt c o) (o + 1))
      else .error .TruncatedStream := by
  unfold Segment.Segment
  rw [expect_PG_at]
  split_ifs <;>
    simp only [ok_bind, error_bind, bind_read_u1_at, bind_read_u2_at, bind_read_u4_at,
      Nat.add_assoc, Nat.reduceAdd] <;>
    first | rfl | (split_ifs <;> first | rfl | omega)

theorem forcedCount_succ (c : List Byte) (o k : Nat) :
    forcedCount c o (k + 1) =
      (if byteAt c (o + 3) = 0x40 then 1 else 0) + forcedCount c (o + 16) k := by
  unfold forcedCount
  rw [List.range_succ_eq_map, List.filter_cons, List.filter_map]
  have e : ((fun i => decide (byteAt c (o + 16 * i + 3) = 0x40)) ∘ Nat.succ) =
      (fun i => decide (byteAt c (o + 16 + 16 * i + 3) = 0x40)) := by
    funext i
    have : o + 16 * (i + 1) + 3 = o + 16 + 16 * i + 3 := by ring
    simp [this]
  rw [e]
  by_cases h : byteAt c (o + 3) = 0x40 <;> simp [h]
  omega

theorem forcedCount_le (c : List Byte) (o k : Nat) : forcedCount c o k ≤ k := by
  unfold forcedCount
  exact (List.length_filter_le _ _).trans (by simp)

theorem sprite_loop_at (c : List Byte) (k : Nat) :
    ∀ (o n : Nat), o ≤ c.length → sprite_loop k ⟨c, o, none⟩ n =
      if o + 16 * k ≤ c.length then .ok (n + forcedCount c o k, ⟨c, o + 16 * k, none⟩)
      else .error .TruncatedStream := by
  induction k with
  | zero =>
    intro o n h
    simp [sprite_loop, forcedCount, h]
  | succ k ih =>
    intro o n ho
    rw [sprite_loop, Sprite_at]
    by_cases h : o + 16 ≤ c.length
    · simp only [h, if_true, ih _ _ h, forcedCount_succ, Sprite.Flag_forced]
      by_cases h2 : o + 16 + 16 * k ≤ c.length
      · have h3 : o + 16 * (k + 1) ≤ c.length := by omega
        have h4 : o + 16 + 16 * k = o + 16 * (k + 1) := by ring
        by_cases hf : byteAt c (o + 3) = 0x40 <;> simp [h2, h3, h4, hf]; omega
      · have h3 : ¬ o + 16 * (k + 1) ≤ c.length := by omega
        simp [h2, h3]
    · have h3 : ¬ o + 16 * (k + 1) ≤ c.length := by omega
      simp [h, h3]

/-! ## One iteration of the walker in closed form -/

theorem Segment_of_headerOk (c : List Byte) (p : Nat) (h : HeaderOk c p) :
    Segment.Segment ⟨c, p, none⟩ = .ok (headerAt c p, ⟨c, p + 13, none⟩) := by
  obtain ⟨h1, h2, h3⟩ := h
  have a1 : p + 1 ≤ c.length := by omega
  have a2 : p + 2 ≤ c.length := by omega
  rw [Segment_at]
  simp only [a1, a2, h1, h2, h3, if_true]

theorem Segment_of_not_headerOk (c : List Byte) (p : Nat) (h : ¬ HeaderOk c p) :
    ∃ e, Segment.Segment ⟨c, p, none⟩ = .error e := by
  rw [Segment_at]
  unfold HeaderOk at h
  split_ifs <;> first | exact ⟨_, rfl⟩ | (exfalso; apply h; exact ⟨by omega, by assumption, by assumption⟩)

theorem Segment_ok_inv (c : List Byte) (p : Nat) (seg : Segment) (f1 : In_file)
    (h : Segment.Segment ⟨c, p, none⟩ = .ok (seg, f1)) :
    HeaderOk c p ∧ seg = headerAt c p ∧ f1 = ⟨c, p + 13, none⟩ := by
  by_cases hh : HeaderOk c p
  · rw [Segment_of_headerOk c p hh] at h
    simp only [Except.ok.injEq, Prod.mk.injEq] at h
    exact ⟨hh, h.1.symm, h.2.symm⟩
  · obtain ⟨e, he⟩ := Segment_of_not_headerOk c p hh
    rw [he] at h
    cases h

theorem loop_body_of_headerOk (c : List Byte) (p nc nf : Nat) (h : HeaderOk c p) :
    loop_body ⟨c, p, none⟩ nc nf =
      if byteAt c (p + 10) = 0x16 then
        if p + 24 + 16 * byteAt c (p + 23) ≤ c.length then
          .ok (⟨c, p + 13 + u16At c (p + 11), none⟩, nc + byteAt c (p + 23),
            nf + forcedCount c (p + 24) (byteAt c (p + 23)))
        else .error .TruncatedStream
      else .ok (⟨c, p + 13 + u16At c (p + 11), none⟩, nc, nf) := by
  unfold loop_body
  rw [Segment_of_headerOk c p h]
  simp only [headerAt, In_file.pos, In_file.pos_set, Segment.Type_PCS, Option.isSome_none,
    Bool.false_eq_true, if_false, Nat.sub_zero]
  by_cases ht : byteAt c (p + 10) = 0x16
  · simp only [ht, if_true, PCS_at]
    by_cases h1 : p + 13 + 11 ≤ c.length
    · have e : p + 13 + 11 = p + 24 := rfl
      simp only [h1, if_true, e]
      rw [sprite_loop_at c _ _ _ (by omega)]
      by_cases h2 : p + 24 + 16 * byteAt c (p + 23) ≤ c.length
      · simp only [h2, if_true]
      · simp only [h2, if_false]
    · have h2 : ¬ p + 24 + 16 * byteAt c (p + 23) ≤ c.length := by omega
      simp only [h1, h2, if_false]
  · simp only [ht, if_false]

theorem loop_body_of_not_headerOk (c : List Byte) (p nc nf : Nat) (h : ¬ HeaderOk c p) :
    ∃ e, loop_body ⟨c, p, none⟩ nc nf = .error e := by
  obtain ⟨e, he⟩ := Segment_of_not_headerOk c p h
  exact ⟨e, by unfold loop_body; rw [he]⟩

theorem more_at (c : List Byte) (p : Nat) :
    In_file.more ⟨c, p, none⟩ =
      if h : p < c.length then (true, ⟨c, p + 1, some (c.get ⟨p, h⟩)⟩)
      else (false, ⟨c, p, none⟩) := by
  unfold In_file.more In_file.get_char In_file.ungetc
  by_cases h : p < c.length
  · simp [h, List.getElem?_eq_getElem]
  · simp [h, List.getElem?_eq_none (Nat.le_of_not_lt h)]

theorem read_u1_after_more (c : List Byte) (p : Nat) (h : p < c.length) :
    In_file.read_u1 ⟨c, p + 1, some (c.get ⟨p, h⟩)⟩ = In_file.read_u1 ⟨c, p, none⟩ := by
  rw [read_u1_pushed, read_u1_at]
  simp [h, byteAt, List.getD_eq_getElem]

theorem loop_body_after_more (c : List Byte) (p nc nf : Nat) (h : p < c.length) :
    loop_body ⟨c, p + 1, some (c.get ⟨p, h⟩)⟩ nc nf = loop_body ⟨c, p, none⟩ nc nf := by
  have e : Segment.Segment ⟨c, p + 1, some (c.get ⟨p, h⟩)⟩ = Segment.Segment ⟨c, p, none⟩ := by
    unfold Segment.Segment magic_PG
    rw [In_file.expect, In_file.expect, read_u1_after_more]
  unfold loop_body
  rw [e]

theorem walk_succ (c : List Byte) (fuel p nc nf : Nat) :
    walk (fuel + 1) ⟨c, p, none⟩ nc nf =
      if p < c.length then
        match loop_body ⟨c, p, none⟩ nc nf with
        | .error e => some (.error e)
        | .ok (f2, nc1, nf1) => walk fuel f2 nc1 nf1
      else some (.ok (nf, nc)) := by
  rw [walk, more_at]
  by_cases h : p < c.length
  · simp only [h, dite_true, if_true, loop_body_after_more]
  · simp only [h, dite_false, if_false]

/-! ## The walker -/

/-- A successful iteration at `p` inside the stream: the header is complete, the
records of a PCS segment are present, and the walk goes on 13 + body size
further with the counters advanced. -/
theorem walk_succ_ok (c : List Byte) (fuel p nc nf : Nat) (r : Nat × Nat) (hp : p < c.length)
    (h : walk (fuel + 1) ⟨c, p, none⟩ nc nf = some (.ok r)) :
    HeaderOk c p ∧
      if byteAt c (p + 10) = 0x16 then
        p + 24 + 16 * byteAt c (p + 23) ≤ c.length ∧
          walk fuel ⟨c, p + 13 + u16At c (p + 11), none⟩ (nc + byteAt c (p + 23))
            (nf + forcedCount c (p + 24) (byteAt c (p + 23))) = some (.ok r)
      else walk fuel ⟨c, p + 13 + u16At c (p + 11), none⟩ nc nf = some (.ok r) := by
  rw [walk_succ] at h
  simp only [hp, if_true] at h
  by_cases hh : HeaderOk c p
  · refine ⟨hh, ?_⟩
    rw [loop_body_of_headerOk c p nc nf hh] at h
    by_cases ht : byteAt c (p + 10) = 0x16
    · simp only [ht, if_true] at h ⊢
      by_cases h2 : p + 24 + 16 * byteAt c (p + 23) ≤ c.length
      · simp only [h2, if_true] at h
        exact ⟨h2, h⟩
      · simp only [h2, if_false] at h
        cases h
    · simp only [ht, if_false] at h ⊢
      exact h
  · obtain ⟨e, he⟩ := loop_body_of_not_headerOk c p nc nf hh
    rw [he] at h
    cases h

theorem walk_succ_end (c : List Byte) (fuel p nc nf : Nat) (hp : c.length ≤ p) :
    walk (fuel + 1) ⟨c, p, none⟩ nc nf = some (.ok (nf, nc)) := by
  rw [walk_succ]
  simp only [Nat.not_lt.mpr hp, if_false]

/-- The bound on the iterations is never used up when it exceeds the number of
bytes left. -/
theorem walk_total (c : List Byte) :
    ∀ (fuel p nc nf : Nat), c.length ≤ p + fuel →
      ∃ r, walk (fuel + 1) ⟨c, p, none⟩ nc nf = some r := by
  intro fuel
  induction fuel with
  | zero =>
    intro p nc nf h
    exact ⟨_, walk_succ_end c 0 p nc nf (by omega)⟩
  | succ fuel ih =>
    intro p nc nf h
    by_cases hp : p < c.length
    · rw [walk_succ]
      simp only [hp, if_true]
      by_cases hh : HeaderOk c p
      · rw [loop_body_of_headerOk c p nc nf hh]
        split_ifs
        · exact ih _ _ _ (by omega)
        · exact ⟨_, rfl⟩
        · exact ih _ _ _ (by omega)
      · obtain ⟨e, he⟩ := loop_body_of_not_headerOk c p nc nf hh
        rw [he]
        exact ⟨_, rfl⟩
    · exact ⟨_, walk_succ_end c (fuel + 1) p nc nf (by omega)⟩

/-- More iterations allowed than needed give the same result. -/
theorem walk_mono (c : List Byte) (r : Except Fatal (Nat × Nat)) :
    ∀ (fuel p nc nf : Nat), walk fuel ⟨c, p, none⟩ nc nf = some r →
      ∀ k, walk (fuel + k) ⟨c, p, none⟩ nc nf = some r := by
  intro fuel
  induction fuel with
  | zero =>
    intro p nc nf h
    simp [walk] at h
  | succ fuel ih =>
    intro p nc nf h k
    have e : fuel + 1 + k = (fuel + k) + 1 := by omega
    rw [e, walk_succ]
    rw [walk_succ] at h
    by_cases hp : p < c.length
    · simp only [hp, if_true] at h ⊢
      by_cases hh : HeaderOk c p
      · rw [loop_body_of_headerOk c p nc nf hh] at h ⊢
        split_ifs at h ⊢
        · exact ih _ _ _ h k
        · exact h
        · exact ih _ _ _ h k
      · obtain ⟨e, he⟩ := loop_body_of_not_headerOk c p nc nf hh
        rw [he] at h ⊢
        exact h
    · simp only [hp, if_false] at h ⊢
      exact h

theorem walk_zero (f : In_file) (nc nf : Nat) : walk 0 f nc nf = none := rfl

/-- The counters of a finished walk from `p` are the start values plus the sums
over the PCS segments on the path from `p`. -/
theorem walk_counts (c : List Byte) :
    ∀ (fuel p nc nf : Nat) (r : Nat × Nat),
      walk (fuel + 1) ⟨c, p, none⟩ nc nf = some (.ok r) →
      r.2 = nc + (((segmentStarts c fuel p).filter (fun q => byteAt c (q + 10) = 0x16)).map
        (fun q => byteAt c (q + 23))).sum ∧
      r.1 = nf + (((segmentStarts c fuel p).filter (fun q => byteAt c (q + 10) = 0x16)).map
        (fun q => forcedCount c (q + 24) (byteAt c (q + 23)))).sum := by
  intro fuel
  induction fuel with
  | zero =>
    intro p nc nf r h
    by_cases hp : p < c.length
    · have h2 := (walk_succ_ok c 0 p nc nf r hp h).2
      split_ifs at h2
      · rw [walk_zero] at h2
        cases h2.2
      · rw [walk_zero] at h2
        cases h2
    · rw [walk_succ_end c 0 p nc nf (by omega)] at h
      cases h
      simp [segmentStarts]
  | succ fuel ih =>
    intro p nc nf r h
    by_cases hp : p < c.length
    · have h2 := (walk_succ_ok c (fuel + 1) p nc nf r hp h).2
      by_cases ht : byteAt c (p + 10) = 0x16
      · simp only [ht, if_true] at h2
        have h3 := ih _ _ _ r h2.2
        simp only [segmentStarts, hp, if_true, List.filter_cons, ht, decide_True, List.map_cons,
          List.sum_cons]
        omega
      · simp only [ht, if_false] at h2
        have h3 := ih _ _ _ r h2
        simp only [segmentStarts, hp, if_true, List.filter_cons, ht, decide_False]
        exact h3
    · rw [walk_succ_end c (fuel + 1) p nc nf (by omega)] at h
      cases h
      simp [segmentStarts, hp]

/-- The forced counter never exceeds the object counter. -/
theorem walk_forced_le (c : List Byte) :
    ∀ (fuel p nc nf : Nat) (r : Nat × Nat), nf ≤ nc →
      walk fuel ⟨c, p, none⟩ nc nf = some (.ok r) → r.1 ≤ r.2 := by
  intro fuel
  induction fuel with
  | zero =>
    intro p nc nf r _ h
    rw [walk_zero] at h
    cases h
  | succ fuel ih =>
    intro p nc nf r hle h
    by_cases hp : p < c.length
    · have h2 := (walk_succ_ok c fuel p nc nf r hp h).2
      have h4 := forcedCount_le c (p + 24) (byteAt c (p + 23))
      split_ifs at h2
      · exact ih _ _ _ r (by omega) h2.2
      · exact ih _ _ _ r hle h2
    · rw [walk_succ_end c fuel p nc nf (by omega)] at h
      cases h
      exact hle

/-- The walker always finishes: with counters or with a fatal error. -/
theorem sup_count_forced_total (bytes : List Byte) :
    ∃ r, sup_count_forced (In_file.open bytes) = some r :=
  walk_total bytes bytes.length 0 0 0 (by omega)

theorem read_u1_wf (f : In_file) (hwf : f.wf) :
    f.read_u1 = In_file.read_u1 ⟨f.content, f.pos, none⟩ := by
  obtain ⟨c, o, pu⟩ := f
  cases pu with
  | none => rfl
  | some b =>
    obtain ⟨h1, h2⟩ := hwf b rfl
    simp only at h1 h2
    have hlt : o - 1 < c.length := by
      by_contra hn
      rw [List.getElem?_eq_none (Nat.le_of_not_lt hn)] at h2
      cases h2
    have hb : byteAt c (o - 1) = b.val := by
      rw [List.getElem?_eq_getElem hlt] at h2
      simp only [Option.some.injEq] at h2
      simp [byteAt, List.getD_eq_getElem, hlt, h2]
    have ho : o - 1 + 1 = o := by omega
    simp only [In_file.pos, Option.isSome_some, if_true]
    rw [read_u1_pushed, read_u1_at]
    simp only [hlt, if_true, hb, ho]

theorem read_u2_wf (f : In_file) (hwf : f.wf) :
    f.read_u2 = In_file.read_u2 ⟨f.content, f.pos, none⟩ := by
  unfold In_file.read_u2
  rw [read_u1_wf f hwf]

theorem read_u4_wf (f : In_file) (hwf : f.wf) :
    f.read_u4 = In_file.read_u4 ⟨f.content, f.pos, none⟩ := by
  unfold In_file.read_u4
  rw [read_u2_wf f hwf]

theorem forcedCount_congr (c1 c2 : List Byte) (o k : Nat)
    (h : ∀ i, i < o + 16 * k → byteAt c1 i = byteAt c2 i) :
    forcedCount c1 o k = forcedCount c2 o k := by
  unfold forcedCount
  congr 1
  apply List.filter_congr
  intro i hi
  rw [List.mem_range] at hi
  rw [h (o + 16 * i + 3) (by omega)]

theorem headerOk_congr (c1 c2 : List Byte) (p : Nat) (hlen : c1.length = c2.length)
    (h : ∀ i, i < p + 13 → byteAt c1 i = byteAt c2 i) (hh : HeaderOk c2 p) : HeaderOk c1 p := by
  obtain ⟨h1, h2, h3⟩ := hh
  exact ⟨by omega, by rw [h p (by omega)]; exact h2, by rw [h (p + 1) (by omega)]; exact h3⟩

theorem u16At_congr (c1 c2 : List Byte) (i : Nat)
    (h0 : byteAt c1 i = byteAt c2 i) (h1 : byteAt c1 (i + 1) = byteAt c2 (i + 1)) :
    u16At c1 i = u16At c2 i := by
  unfold u16At
  rw [h0, h1]

theorem byteAt_take (c : List Byte) (m i : Nat) (h : i < m) :
    byteAt (c.take m) i = byteAt c i := by
  simp [byteAt, List.getD_eq_getElem?_getD, List.getElem?_take, h]

theorem u16At_take (c : List Byte) (m i : Nat) (h : i + 1 < m) :
    u16At (c.take m) i = u16At c i := by
  unfold u16At
  rw [byteAt_take c m i (by omega), byteAt_take c m (i + 1) h]

theorem segmentStarts_mem (c : List Byte) :
    ∀ (n p q : Nat), q ∈ segmentStarts c n p → p ≤ q ∧ q < c.length := by
  intro n
  induction n with
  | zero =>
    intro p q h
    simp [segmentStarts] at h
  | succ n ih =>
    intro p q h
    by_cases hp : p < c.length
    · simp only [segmentStarts, hp, if_true, List.mem_cons] at h
      rcases h with h | h
      · subst h
        exact ⟨Nat.le_refl _, hp⟩
      · have := ih _ _ h
        omega
    · simp [segmentStarts, hp] at h

theorem validFrom_succ (c : List Byte) (n p : Nat) (hp : p < c.length)
    (h : validFrom c (n + 1) p = true) :
    HeaderOk c p ∧ p + 13 + u16At c (p + 11) ≤ c.length ∧
      (byteAt c (p + 10) = 0x16 → 11 + 16 * byteAt c (p + 23) ≤ u16At c (p + 11)) ∧
      validFrom c n (p + 13 + u16At c (p + 11)) = true := by
  have hne : p ≠ c.length := by omega
  simp only [validFrom, hne, decide_False, Bool.false_or, Bool.and_eq_true, Bool.or_eq_true,
    decide_eq_true_eq] at h
  obtain ⟨⟨⟨h1, h2⟩, h3⟩, h4⟩ := h
  refine ⟨h1, h2, ?_, h4⟩
  intro ht
  rcases h3 with h3 | h3
  · exact absurd ht h3
  · exact h3

/-- On a valid stream cut 5 bytes short, the walk from a segment start before
the last segment, a PCS segment with fewer than 5 bytes after its records,
fails inside those records. -/
theorem walk_take_truncated (c : List Byte) (q : Nat)
    (hlast : q + 13 + u16At c (q + 11) = c.length)
    (hty : byteAt c (q + 10) = 0x16)
    (hsz : u16At c (q + 11) < 11 + 16 * byteAt c (q + 23) + 5) :
    ∀ (n p nc nf : Nat), validFrom c n p = true → q ∈ segmentStarts c n p →
      ∀ fuel, n ≤ fuel →
        walk fuel ⟨c.take (c.length - 5), p, none⟩ nc nf = some (.error .TruncatedStream) := by
  intro n
  induction n with
  | zero =>
    intro p nc nf _ hq
    simp [segmentStarts] at hq
  | succ n ih =>
    intro p nc nf hv hq fuel hfuel
    obtain ⟨fuel, rfl⟩ : ∃ k, fuel = k + 1 := ⟨fuel - 1, by omega⟩
    have hp : p < c.length := by
      by_contra hn
      simp [segmentStarts, hn] at hq
    obtain ⟨hh, hfit, hrec, hv2⟩ := validFrom_succ c n p hp hv
    simp only [segmentStarts, hp, if_true, List.mem_cons] at hq
    have hlen2 : (c.take (c.length - 5)).length = c.length - 5 := by simp
    obtain ⟨hh1, hh2, hh3⟩ := hh
    rcases hq with hq | hq
    · subst hq
      have hsize := hrec hty
      have hh2 : HeaderOk (c.take (c.length - 5)) q :=
        ⟨by omega, by rw [byteAt_take c _ q (by omega)]; exact hh2,
          by rw [byteAt_take c _ (q + 1) (by omega)]; exact hh3⟩
      have hcnt : q + 23 < c.length - 5 →
          byteAt (c.take (c.length - 5)) (q + 23) = byteAt c (q + 23) :=
        fun h => byteAt_take c _ _ h
      rw [walk_succ, loop_body_of_headerOk _ q nc nf hh2, byteAt_take c _ (q + 10) (by omega)]
      have hcond : ¬ q + 24 + 16 * byteAt (c.take (c.length - 5)) (q + 23) ≤
          (c.take (c.length - 5)).length := by
        by_cases h23 : q + 23 < c.length - 5
        · rw [hcnt h23]
          omega
        · omega
      have hp2 : q < (c.take (c.length - 5)).length := by omega
      simp only [hp2, hty, hcond, if_true, if_false]
    · obtain ⟨hq1, hq2⟩ := segmentStarts_mem c _ _ _ hq
      have hm : p + 13 + u16At c (p + 11) + 8 ≤ c.length - 5 := by omega
      have hhp : HeaderOk (c.take (c.length - 5)) p :=
        ⟨by omega, by rw [byteAt_take c _ p (by omega)]; exact hh2,
          by rw [byteAt_take c _ (p + 1) (by omega)]; exact hh3⟩
      have hp2 : p < (c.take (c.length - 5)).length := by omega
      rw [walk_succ, loop_body_of_headerOk _ p nc nf hhp, byteAt_take c _ (p + 10) (by omega),
        u16At_take c _ (p + 11) (by omega)]
      simp only [hp2, if_true]
      by_cases ht : byteAt c (p + 10) = 0x16
      · have hsize := hrec ht
        rw [byteAt_take c _ (p + 23) (by omega)]
        have hcond : p + 24 + 16 * byteAt c (p + 23) ≤ (c.take (c.length - 5)).length := by
          omega
        simp only [ht, hcond, if_true]
        exact ih _ _ _ hv2 hq fuel (by omega)
      · simp only [ht, if_false]
        exact ih _ _ _ hv2 hq fuel (by omega)

theorem segmentStarts_length_le (c : List Byte) :
    ∀ (n p : Nat), (segmentStarts c n p).length ≤ n := by
  intro n
  induction n with
  | zero => intro p; simp [segmentStarts]
  | succ n ih =>
    intro p
    by_cases hp : p < c.length
    · simp only [segmentStarts, hp, if_true, List.length_cons]
      exact Nat.succ_le_succ (ih _)
    · simp [segmentStarts, hp]

/-- The list of segment starts is complete once `n` covers the bytes left. -/
theorem segmentStarts_stable (c : List Byte) :
    ∀ (n p k : Nat), c.length ≤ p + n → segmentStarts c (n + k) p = segmentStarts c n p := by
  intro n
  induction n with
  | zero =>
    intro p k h
    cases k with
    | zero => rfl
    | succ k =>
      have hp : ¬ p < c.length := by omega
      simp [segmentStarts, hp]
  | succ n ih =>
    intro p k h
    have e : n + 1 + k = (n + k) + 1 := by omega
    rw [e]
    by_cases hp : p < c.length
    · simp only [segmentStarts, hp, if_true]
      rw [ih _ k (by omega)]
    · simp [segmentStarts, hp]

theorem sum_filter_map_le (P : Nat → Bool) (g : Nat → Nat)
    (hg : ∀ q, g q ≤ 255) : ∀ l : List Nat, ((l.filter P).map g).sum ≤ 255 * l.length := by
  intro l
  induction l with
  | nil => simp
  | cons a l ih =>
    have ha := hg a
    by_cases hP : P a = true
    · simp only [List.filter_cons, hP, if_true, List.map_cons, List.sum_cons, List.length_cons]
      omega
    · simp only [List.filter_cons, hP, List.length_cons]
      simp only [Bool.false_eq_true, if_false]
      omega

/-- On a stream shorter than 2^56 bytes both counters of a finished run are
below 2^64, the range of `uintmax_t`. -/
theorem counters_fit (bytes : List Byte) (n_forced n_comp : Nat)
    (h : sup_count_forced (In_file.open bytes) = some (.ok (n_forced, n_comp)))
    (hlen : bytes.length < 2 ^ 56) : n_forced < 2 ^ 64 ∧ n_comp < 2 ^ 64 := by
  have h2 := (walk_counts bytes bytes.length 0 0 0 (n_forced, n_comp) h).1
  have h3 := walk_forced_le bytes _ 0 0 0 (n_forced, n_comp) (Nat.le_refl 0) h
  have h4 := sum_filter_map_le (fun q => byteAt bytes (q + 10) = 0x16)
    (fun q => byteAt bytes (q + 23)) (fun q => Nat.le_of_lt_succ (byteAt_lt bytes _))
    (segmentStarts bytes bytes.length 0)
  have h5 := segmentStarts_length_le bytes bytes.length 0
  simp only at h2 h3
  have h6 : n_comp ≤ 255 * bytes.length := by
    rw [h2, Nat.zero_add]
    exact h4.trans (Nat.mul_le_mul_left _ h5)
  constructor <;> omega

theorem wf_of_none (c : List Byte) (o : Nat) : In_file.wf ⟨c, o, none⟩ := by
  intro b hb
  cases hb

theorem Segment_wf (f : In_file) (hwf : f.wf) :
    Segment.Segment f = Segment.Segment ⟨f.content, f.pos, none⟩ := by
  unfold Segment.Segment magic_PG
  rw [In_file.expect, In_file.expect, read_u1_wf f hwf]

theorem PCS_wf (f : In_file) (hwf : f.wf) :
    PCS.PCS f = PCS.PCS ⟨f.content, f.pos, none⟩ := by
  unfold PCS.PCS
  rw [read_u2_wf f hwf]

theorem Sprite_wf (f : In_file) (hwf : f.wf) :
    Sprite.Sprite f = Sprite.Sprite ⟨f.content, f.pos, none⟩ := by
  unfold Sprite.Sprite
  rw [read_u2_wf f hwf]

theorem u32At_congr (c1 c2 : List Byte) (i : Nat)
    (h0 : byteAt c1 i = byteAt c2 i) (h1 : byteAt c1 (i + 1) = byteAt c2 (i + 1))
    (h2 : byteAt c1 (i + 2) = byteAt c2 (i + 2)) (h3 : byteAt c1 (i + 3) = byteAt c2 (i + 3)) :
    u32At c1 i = u32At c2 i := by
  unfold u32At
  rw [h0, h1, h2, h3]

theorem count_range_map (g : Nat → Nat) (a k : Nat) :
    ((List.range k).map g).count a = ((List.range k).filter (fun i => g i = a)).length := by
  rw [List.count, List.countP_map, List.countP_eq_length_filter]
  congr 1

theorem get_char_more (f : In_file) (hwf : f.wf) :
    In_file.get_char (In_file.more f).2 = In_file.get_char f := by
  obtain ⟨c, o, pu⟩ := f
  cases pu with
  | some b => simp [In_file.more, In_file.get_char, In_file.ungetc]
  | none =>
    by_cases h : o < c.length
    · simp [In_file.more, In_file.get_char, In_file.ungetc, h, List.getElem?_eq_getElem]
    · simp [In_file.more, In_file.get_char, In_file.ungetc,
        List.getElem?_eq_none (Nat.le_of_not_lt h)]

theorem visitedStarts_mem (c : List Byte) :
    ∀ (n p q : Nat), q ∈ visitedStarts c n p → p ≤ q := by
  intro n
  induction n with
  | zero =>
    intro p q h
    simp [visitedStarts] at h
  | succ n ih =>
    intro p q h
    simp only [visitedStarts] at h
    split_ifs at h
    · rcases List.mem_cons.mp h with h | h
      · omega
      · have := ih _ _ h
        omega
    · simp only [List.mem_singleton] at h
      omega
    · cases h

theorem visitedStarts_head (c : List Byte) (n p : Nat) (hp : p < c.length) :
    p ∈ visitedStarts c (n + 1) p := by
  simp only [visitedStarts, hp, if_true]
  split_ifs <;> simp

theorem forcedCount_congr_range (c1 c2 : List Byte) (o k : Nat)
    (h : ∀ i, o ≤ i → i < o + 16 * k → byteAt c1 i = byteAt c2 i) :
    forcedCount c1 o k = forcedCount c2 o k := by
  unfold forcedCount
  congr 1
  apply List.filter_congr
  intro i hi
  rw [List.mem_range] at hi
  rw [h (o + 16 * i + 3) (by omega) (by omega)]

/-- A header that does not decode fails in the same way on two streams of equal
length with the same two bytes at its start. -/
theorem loop_body_error_congr (c1 c2 : List Byte) (p nc nf : Nat)
    (hlen : c1.length = c2.length) (h0 : byteAt c1 p = byteAt c2 p)
    (h1 : byteAt c1 (p + 1) = byteAt c2 (p + 1)) (hn : ¬ HeaderOk c1 p) :
    ∃ e, loop_body ⟨c1, p, none⟩ nc nf = .error e ∧ loop_body ⟨c2, p, none⟩ nc nf = .error e := by
  unfold loop_body
  rw [Segment_at, Segment_at, ← h0, ← h1, ← hlen]
  unfold HeaderOk at hn
  split_ifs
  · exact absurd ⟨by assumption, by assumption, by assumption⟩ hn
  all_goals exact ⟨_, rfl, rfl⟩

/-- Two streams of equal length that differ, from `p` on, only inside skipped
bodies and outside decoded records give the same walk from `p`. -/
theorem walk_congr (c1 c2 : List Byte) (hlen : c1.length = c2.length) :
    ∀ (n p nc nf : Nat),
      (∀ i, p ≤ i → byteAt c1 i ≠ byteAt c2 i →
        inSkippedBody c1 (visitedStarts c1 n p) i ∧
          ¬ inDecodedRecords c1 (visitedStarts c1 n p) i) →
      walk n ⟨c1, p, none⟩ nc nf = walk n ⟨c2, p, none⟩ nc nf := by
  intro n
  induction n with
  | zero =>
    intro p nc nf _
    rfl
  | succ n ih =>
    intro p nc nf H
    rw [walk_succ, walk_succ, ← hlen]
    by_cases hp : p < c1.length
    · simp only [hp, if_true]
      have hhead := visitedStarts_head c1 n p hp
      -- the header bytes agree
      have hhdr : ∀ i, p ≤ i → i < p + 13 → byteAt c1 i = byteAt c2 i := by
        intro i hi1 hi2
        by_contra hne
        obtain ⟨⟨q, hq, _, _, hq1, _⟩, _⟩ := H i hi1 hne
        simp only [visitedStarts, hp, if_true] at hq
        split_ifs at hq
        · rcases List.mem_cons.mp hq with hq | hq
          · omega
          · have := visitedStarts_mem c1 _ _ _ hq
            omega
        · simp only [List.mem_singleton] at hq
          omega
      by_cases hh : HeaderOk c1 p
      · have hh2 : HeaderOk c2 p :=
          ⟨by have := hh.1; omega, by rw [← hhdr p (by omega) (by omega)]; exact hh.2.1,
            by rw [← hhdr (p + 1) (by omega) (by omega)]; exact hh.2.2⟩
        have e10 := hhdr (p + 10) (by omega) (by omega)
        have esz : u16At c1 (p + 11) = u16At c2 (p + 11) :=
          u16At_congr c1 c2 (p + 11) (hhdr _ (by omega) (by omega)) (hhdr _ (by omega) (by omega))
        rw [loop_body_of_headerOk c1 p nc nf hh, loop_body_of_headerOk c2 p nc nf hh2,
          ← e10, ← esz, ← hlen]
        by_cases ht : byteAt c1 (p + 10) = 0x16
        · -- the record bytes agree
          have hrecs : ∀ i, p + 13 ≤ i → i < p + 24 + 16 * byteAt c1 (p + 23) →
              byteAt c1 i = byteAt c2 i := by
            intro i hi1 hi2
            by_contra hne
            exact (H i (by omega) hne).2 ⟨p, hhead, hh, ht, hi1, hi2⟩
          have e23 := hrecs (p + 23) (by omega) (by omega)
          have efc : forcedCount c1 (p + 24) (byteAt c1 (p + 23)) =
              forcedCount c2 (p + 24) (byteAt c1 (p + 23)) :=
            forcedCount_congr_range c1 c2 _ _ (fun i hi1 hi2 => hrecs i (by omega) hi2)
          rw [← e23, ← efc]
          simp only [ht, if_true]
          by_cases hrec : p + 24 + 16 * byteAt c1 (p + 23) ≤ c1.length
          · simp only [hrec, if_true]
            apply ih
            intro i hi hne
            obtain ⟨⟨q, hq, hq0, hq1, hq2, hq3⟩, hnd⟩ := H i (by omega) hne
            have hok : HeaderOk c1 p ∧ (byteAt c1 (p + 10) = 0x16 →
                p + 24 + 16 * byteAt c1 (p + 23) ≤ c1.length) := ⟨hh, fun _ => hrec⟩
            have hvs : visitedStarts c1 (n + 1) p =
                p :: visitedStarts c1 n (p + 13 + u16At c1 (p + 11)) := by
              simp only [visitedStarts, hp, if_true]
              exact if_pos hok
            rw [hvs] at hq hnd
            constructor
            · rcases List.mem_cons.mp hq with hq | hq
              · subst hq
                exact absurd ht hq1
              · exact ⟨q, hq, hq0, hq1, hq2, hq3⟩
            · rintro ⟨q, hq, hrest⟩
              exact hnd ⟨q, List.mem_cons_of_mem _ hq, hrest⟩
          · simp only [hrec, if_false]
        · simp only [ht, if_false]
          apply ih
          intro i hi hne
          obtain ⟨⟨q, hq, hq0, hq1, hq2, hq3⟩, hnd⟩ := H i (by omega) hne
          have hok : HeaderOk c1 p ∧ (byteAt c1 (p + 10) = 0x16 →
              p + 24 + 16 * byteAt c1 (p + 23) ≤ c1.length) := ⟨hh, fun h => absurd h ht⟩
          have hvs : visitedStarts c1 (n + 1) p =
              p :: visitedStarts c1 n (p + 13 + u16At c1 (p + 11)) := by
            simp only [visitedStarts, hp, if_true]
            exact if_pos hok
          rw [hvs] at hq hnd
          constructor
          · rcases List.mem_cons.mp hq with hq | hq
            · subst hq
              omega
            · exact ⟨q, hq, hq0, hq1, hq2, hq3⟩
          · rintro ⟨q, hq, hrest⟩
            exact hnd ⟨q, List.mem_cons_of_mem _ hq, hrest⟩
      · obtain ⟨e, he1, he2⟩ := loop_body_error_congr c1 c2 p nc nf hlen
          (hhdr p (by omega) (by omega)) (hhdr (p + 1) (by omega) (by omega)) hh
        rw [he1, he2]
    · simp only [hp, if_false]

theorem byteAt_set_ne (c : List Byte) (i j : Nat) (x : Byte) (h : i ≠ j) :
    byteAt (c.set j x) i = byteAt c i := by
  simp [byteAt, List.getD_eq_getElem?_getD, List.getElem?_set_ne (Ne.symm h)]

theorem loop_body_of_segment_error (f : In_file) (nc nf : Nat) (e : Fatal)
    (h : Segment.Segment f = .error e) : loop_body f nc nf = .error e := by
  unfold loop_body
  rw [h]

theorem read_past_end (c : List Byte) (o : Nat) (h : c.length ≤ o) :
    In_file.read_u1 ⟨c, o, none⟩ = .error .TruncatedStream ∧
      In_file.read_u2 ⟨c, o, none⟩ = .error .TruncatedStream ∧
      In_file.read_u4 ⟨c, o, none⟩ = .error .TruncatedStream := by
  rw [read_u1_at, read_u2_at, read_u4_at]
  have h1 : ¬ o < c.length := by omega
  have h2 : ¬ o + 2 ≤ c.length := by omega
  have h4 : ¬ o + 4 ≤ c.length := by omega
  simp only [h1, h2, h4, if_false, and_self]

theorem iterations_succ (c : List Byte) (fuel p nc nf : Nat) :
    iterations (fuel + 1) ⟨c, p, none⟩ nc nf =
      if p < c.length then
        match loop_body ⟨c, p, none⟩ nc nf with
        | .error _ => 1
        | .ok (f2, nc1, nf1) => 1 + iterations fuel f2 nc1 nf1
      else 0 := by
  rw [iterations, more_at]
  by_cases h : p < c.length
  · simp only [h, dite_true, if_true, loop_body_after_more]
  · simp only [h, dite_false, if_false]

/-- Every iteration starts inside the stream and ends at least 13 bytes further:
from `p` there are at most `ceil((n - p) / 13)` of them. -/
theorem iterations_le (c : List Byte) :
    ∀ (fuel p nc nf : Nat), 13 * iterations fuel ⟨c, p, none⟩ nc nf ≤ c.length - p + 12 := by
  intro fuel
  induction fuel with
  | zero =>
    intro p nc nf
    simp [iterations]
  | succ fuel ih =>
    intro p nc nf
    rw [iterations_succ]
    by_cases hp : p < c.length
    · simp only [hp, if_true]
      by_cases hh : HeaderOk c p
      · rw [loop_body_of_headerOk c p nc nf hh]
        split_ifs
        · have := ih (p + 13 + u16At c (p + 11)) (nc + byteAt c (p + 23))
            (nf + forcedCount c (p + 24) (byteAt c (p + 23)))
          rw [Nat.mul_add]
          omega
        · simp only
          omega
        · have := ih (p + 13 + u16At c (p + 11)) nc nf
          rw [Nat.mul_add]
          omega
      · obtain ⟨e, he⟩ := loop_body_of_not_headerOk c p nc nf hh
        rw [he]
        simp only
        omega
    · simp only [hp, if_false]
      omega

theorem walk_total13 (c : List Byte) :
    ∀ (fuel p nc nf : Nat), c.length ≤ p + 13 * fuel →
      ∃ r, walk (fuel + 1) ⟨c, p, none⟩ nc nf = some r := by
  intro fuel
  induction fuel with
  | zero =>
    intro p nc nf h
    exact ⟨_, walk_succ_end c 0 p nc nf (by omega)⟩
  | succ fuel ih =>
    intro p nc nf h
    by_cases hp : p < c.length
    · rw [walk_succ]
      simp only [hp, if_true]
      by_cases hh : HeaderOk c p
      · rw [loop_body_of_headerOk c p nc nf hh]
        split_ifs
        · exact ih _ _ _ (by omega)
        · exact ⟨_, rfl⟩
        · exact ih _ _ _ (by omega)
      · obtain ⟨e, he⟩ := loop_body_of_not_headerOk c p nc nf hh
        rw [he]
        exact ⟨_, rfl⟩
    · exact ⟨_, walk_succ_end c (fuel + 1) p nc nf (by omega)⟩

/-- The loop with the 8-bit index does what the loop by count does: with
`sprite_cnt` at most 255 the index never wraps, ends at `sprite_cnt`, and the
body has run once per record. -/
theorem sprite_loop_idx_eq (cnt : Nat) (hcnt : cnt ≤ 255) :
    ∀ (k i runs : Nat) (f : In_file) (nf : Nat), i + k = cnt →
      sprite_loop_idx cnt (k + 1) i runs f nf =
        some (match sprite_loop k f nf with
          | .ok (n, f1) => .ok (n, f1, cnt, runs + k)
          | .error e => .error e) := by
  intro k
  induction k with
  | zero =>
    intro i runs f nf h
    have hic : i = cnt := by omega
    subst hic
    simp only [sprite_loop_idx, Nat.lt_irrefl, if_false, sprite_loop, Nat.add_zero]
  | succ k ih =>
    intro i runs f nf h
    have hi : i < cnt := by omega
    have hmod : (i + 1) % 256 = i + 1 := Nat.mod_eq_of_lt (by omega)
    rw [sprite_loop_idx, sprite_loop]
    simp only [hi, if_true, hmod]
    cases hs : Sprite.Sprite f with
    | error e => rfl
    | ok v =>
      obtain ⟨spr, f1⟩ := v
      simp only
      rw [ih (i + 1) (runs + 1) f1 _ (by omega)]
      have e : runs + 1 + k = runs + (k + 1) := by omega
      rw [e]

/-! ## The program on a device against the program on a stream -/

theorem agree_bind {α β : Type} (dev : Dev) (x : Except Exit α) (y : Except Fatal α)
    (k : α → Except Exit β) (k2 : α → Except Fatal β)
    (hx : Agree dev x y) (hk : ∀ a, Agree dev (k a) (k2 a)) :
    Agree dev (x >>= k) (y >>= k2) := by
  rcases hx with ⟨hbad, hx⟩ | hx
  · left
    exact ⟨hbad, by rw [hx]; rfl⟩
  · cases y with
    | ok a =>
      simp only at hx
      rw [hx]
      exact hk a
    | error e =>
      simp only at hx
      right
      rw [hx.1]
      exact ⟨rfl, hx.2⟩

theorem agree_ok {α : Type} (dev : Dev) (a : α) : Agree dev (.ok a) (.ok a) :=
  Or.inr rfl

theorem agree_unseekable {α : Type} (dev : Dev) (y : Except Fatal α)
    (h : ¬ dev.seekable = true) :
    Agree dev (error EX_IOERR .IoFailure (by decide)) y :=
  Or.inl ⟨fun hh => h hh.1, rfl⟩

theorem get_char_agree (dev : Dev) (f : In_file) :
    Agree dev (dev.get_char f) (.ok f.get_char) := by
  cases hp : f.pushed with
  | some b =>
    right
    simp [Dev.get_char, Dev.getc, In_file.get_char, hp]
  | none =>
    by_cases hf : dev.read_fails f.offset = true
    · left
      refine ⟨?_, ?_⟩
      · intro hh
        simp [Dev.read_fails, hh.2] at hf
      · simp [Dev.get_char, Dev.getc, hp, hf, error]
    · right
      cases hc : f.content[f.offset]? with
      | none => simp [Dev.get_char, Dev.getc, In_file.get_char, hp, hf, hc]
      | some b => simp [Dev.get_char, Dev.getc, In_file.get_char, hp, hf, hc]

theorem read_u1_bind_form (f : In_file) :
    f.read_u1 = ((Except.ok f.get_char : Except Fatal (Option Byte × In_file)) >>= fun r =>
      match r.1 with
      | none => .error .TruncatedStream
      | some b => .ok (b.val, r.2)) := by
  unfold In_file.read_u1
  rcases hg : f.get_char with ⟨c, f1⟩
  cases c <;> rfl

theorem read_u1_agree (dev : Dev) (f : In_file) :
    Agree dev (dev.read_u1 f) f.read_u1 := by
  rw [read_u1_bind_form]
  unfold Dev.read_u1
  apply agree_bind dev _ _ _ _ (get_char_agree dev f)
  rintro ⟨c, f1⟩
  cases c with
  | none => exact Or.inr ⟨rfl, Or.inl rfl⟩
  | some b => exact Or.inr rfl

theorem read_u2_agree (dev : Dev) (f : In_file) :
    Agree dev (dev.read_u2 f) f.read_u2 := by
  unfold Dev.read_u2 In_file.read_u2
  apply agree_bind dev _ _ _ _ (read_u1_agree dev f)
  rintro ⟨v, f1⟩
  apply agree_bind dev _ _ _ _ (read_u1_agree dev f1)
  rintro ⟨w, f2⟩
  exact Or.inr rfl

theorem read_u4_agree (dev : Dev) (f : In_file) :
    Agree dev (dev.read_u4 f) f.read_u4 := by
  unfold Dev.read_u4 In_file.read_u4
  apply agree_bind dev _ _ _ _ (read_u2_agree dev f)
  rintro ⟨v, f1⟩
  apply agree_bind dev _ _ _ _ (read_u2_agree dev f1)
  rintro ⟨w, f2⟩
  exact Or.inr rfl

theorem pos_agree (dev : Dev) (f : In_file) : Agree dev (dev.pos f) (.ok f.pos) := by
  unfold Dev.pos
  by_cases h : dev.seekable = true
  · simp only [h, if_true]
    exact Or.inr rfl
  · simp only [h, Bool.false_eq_true, if_false]
    exact agree_unseekable dev _ h

theorem pos_set_agree (dev : Dev) (f : In_file) (o : Nat) :
    Agree dev (dev.pos_set f o) (.ok (f.pos_set o)) := by
  unfold Dev.pos_set
  by_cases h : dev.seekable = true
  · simp only [h, if_true]
    exact Or.inr rfl
  · simp only [h, Bool.false_eq_true, if_false]
    exact agree_unseekable dev _ h

theorem expect_bind_form (b : Nat) (bs : List Nat) (f : In_file) :
    In_file.expect (b :: bs) f = (f.read_u1 >>= fun r =>
      if b ≠ r.1 then
        (Except.ok r.2.pos : Except Fatal Nat) >>= fun o => .error (.MalformedData b r.1 o)
      else In_file.expect bs r.2) := by
  rw [In_file.expect]
  cases f.read_u1 with
  | error e => rfl
  | ok r => rfl

theorem expect_agree (dev : Dev) (bs : List Nat) :
    ∀ f : In_file, Agree dev (dev.expect bs f) (In_file.expect bs f) := by
  induction bs with
  | nil =>
    intro f
    exact Or.inr rfl
  | cons b bs ih =>
    intro f
    rw [expect_bind_form, Dev.expect]
    apply agree_bind dev _ _ _ _ (read_u1_agree dev f)
    rintro ⟨c, f1⟩
    by_cases hb : b ≠ c
    · simp only [hb, ne_eq, not_false_eq_true, if_true]
      apply agree_bind dev _ _ _ _ (pos_agree dev f1)
      intro o
      exact Or.inr ⟨rfl, Or.inr ⟨b, c, o, rfl⟩⟩
    · simp only [hb, if_false]
      exact ih f1

theorem more_agree (dev : Dev) (f : In_file) : Agree dev (dev.more f) (.ok f.more) := by
  have e : (Except.ok f.more : Except Fatal (Bool × In_file)) =
      ((Except.ok f.get_char : Except Fatal (Option Byte × In_file)) >>= fun r =>
        match r.1 with
        | none => .ok (false, r.2)
        | some b => .ok (true, r.2.ungetc b)) := by
    unfold In_file.more
    rcases hg : f.get_char with ⟨c, f1⟩
    cases c <;> rfl
  rw [e]
  unfold Dev.more
  apply agree_bind dev _ _ _ _ (get_char_agree dev f)
  rintro ⟨c, f1⟩
  cases c with
  | none => exact Or.inr rfl
  | some b => exact Or.inr rfl

theorem Segment_agree (dev : Dev) (f : In_file) :
    Agree dev (dev.Segment f) (Segment.Segment f) := by
  unfold Dev.Segment Segment.Segment
  apply agree_bind dev _ _ _ _ (expect_agree dev magic_PG f)
  intro f1
  apply agree_bind dev _ _ _ _ (read_u4_agree dev f1)
  rintro ⟨time, f2⟩
  apply agree_bind dev _ _ _ _ (read_u4_agree dev f2)
  rintro ⟨_, f3⟩
  apply agree_bind dev _ _ _ _ (read_u1_agree dev f3)
  rintro ⟨type, f4⟩
  apply agree_bind dev _ _ _ _ (read_u2_agree dev f4)
  rintro ⟨size, f5⟩
  exact Or.inr rfl

theorem PCS_agree (dev : Dev) (f : In_file) : Agree dev (dev.PCS f) (PCS.PCS f) := by
  unfold Dev.PCS PCS.PCS
  apply agree_bind dev _ _ _ _ (read_u2_agree dev f)
  rintro ⟨_, f1⟩
  apply agree_bind dev _ _ _ _ (read_u2_agree dev f1)
  rintro ⟨_, f2⟩
  apply agree_bind dev _ _ _ _ (read_u1_agree dev f2)
  rintro ⟨_, f3⟩
  apply agree_bind dev _ _ _ _ (read_u2_agree dev f3)
  rintro ⟨_, f4⟩
  apply agree_bind dev _ _ _ _ (read_u1_agree dev f4)
  rintro ⟨_, f5⟩
  apply agree_bind dev _ _ _ _ (read_u1_agree dev f5)
  rintro ⟨_, f6⟩
  apply agree_bind dev _ _ _ _ (read_u1_agree dev f6)
  rintro ⟨_, f7⟩
  apply agree_bind dev _ _ _ _ (read_u1_agree dev f7)
  rintro ⟨_, f8⟩
  exact Or.inr rfl

theorem Sprite_agree (dev : Dev) (f : In_file) :
    Agree dev (dev.Sprite f) (Sprite.Sprite f) := by
  unfold Dev.Sprite Sprite.Sprite
  apply agree_bind dev _ _ _ _ (read_u2_agree dev f)
  rintro ⟨_, f1⟩
  apply agree_bind dev _ _ _ _ (read_u1_agree dev f1)
  rintro ⟨_, f2⟩
  apply agree_bind dev _ _ _ _ (read_u1_agree dev f2)
  rintro ⟨_, f3⟩
  apply agree_bind dev _ _ _ _ (read_u2_agree dev f3)
  rintro ⟨_, f4⟩
  apply agree_bind dev _ _ _ _ (read_u2_agree dev f4)
  rintro ⟨_, f5⟩
  apply agree_bind dev _ _ _ _ (read_u2_agree dev f5)
  rintro ⟨_, f6⟩
  apply agree_bind dev _ _ _ _ (read_u2_agree dev f6)
  rintro ⟨_, f7⟩
  apply agree_bind dev _ _ _ _ (read_u2_agree dev f7)
  rintro ⟨_, f8⟩
  apply agree_bind dev _ _ _ _ (read_u2_agree dev f8)
  rintro ⟨_, f9⟩
  exact Or.inr rfl

theorem sprite_loop_agree (dev : Dev) (k : Nat) :
    ∀ (f : In_file) (nf : Nat), Agree dev (dev.sprite_loop k f nf) (sprite_loop k f nf) := by
  induction k with
  | zero =>
    intro f nf
    exact Or.inr rfl
  | succ k ih =>
    intro f nf
    have e : sprite_loop (k + 1) f nf = (Sprite.Sprite f >>= fun r =>
        sprite_loop k r.2 (if r.1.flag = Sprite.Flag_forced then nf + 1 else nf)) := by
      rw [sprite_loop]
      cases Sprite.Sprite f with
      | error e => rfl
      | ok r => rfl
    rw [e, Dev.sprite_loop]
    apply agree_bind dev _ _ _ _ (Sprite_agree dev f)
    rintro ⟨spr, f1⟩
    exact ih f1 _

theorem loop_body_bind_form (f : In_file) (nc nf : Nat) :
    loop_body f nc nf = (Segment.Segment f >>= fun r =>
      (Except.ok r.2.pos : Except Fatal Nat) >>= fun p =>
        if r.1.type = Segment.Type_PCS then
          PCS.PCS r.2 >>= fun r2 =>
            sprite_loop r2.1.sprite_cnt r2.2 nf >>= fun r3 =>
              (Except.ok (r3.2.pos_set (p + r.1.size)) : Except Fatal In_file) >>= fun f4 =>
                .ok (f4, nc + r2.1.sprite_cnt, r3.1)
        else
          (Except.ok (r.2.pos_set (p + r.1.size)) : Except Fatal In_file) >>= fun f4 =>
            .ok (f4, nc, nf)) := by
  unfold loop_body
  cases Segment.Segment f with
  | error e => rfl
  | ok r =>
    obtain ⟨seg, f1⟩ := r
    by_cases ht : seg.type = Segment.Type_PCS
    · simp only [ht, if_true, bind, Except.bind]
      cases PCS.PCS f1 with
      | error e => rfl
      | ok r2 =>
        obtain ⟨pcs, f2⟩ := r2
        simp only
        cases sprite_loop pcs.sprite_cnt f2 nf with
        | error e => rfl
        | ok r3 => rfl
    · simp only [ht, if_false, bind, Except.bind]

theorem loop_body_agree (dev : Dev) (f : In_file) (nc nf : Nat) :
    Agree dev (dev.loop_body f nc nf) (loop_body f nc nf) := by
  rw [loop_body_bind_form]
  unfold Dev.loop_body
  apply agree_bind dev _ _ _ _ (Segment_agree dev f)
  rintro ⟨seg, f1⟩
  apply agree_bind dev _ _ _ _ (pos_agree dev f1)
  intro p
  by_cases ht : seg.type = Segment.Type_PCS
  · simp only [ht, if_true]
    apply agree_bind dev _ _ _ _ (PCS_agree dev f1)
    rintro ⟨pcs, f2⟩
    apply agree_bind dev _ _ _ _ (sprite_loop_agree dev _ f2 nf)
    rintro ⟨nf1, f3⟩
    apply agree_bind dev _ _ _ _ (pos_set_agree dev f3 _)
    intro f4
    exact Or.inr rfl
  · simp only [ht, if_false]
    apply agree_bind dev _ _ _ _ (pos_set_agree dev f1 _)
    intro f4
    exact Or.inr rfl

/-- The walk on a device ends the process with `EX_IOERR` on a device that is
not healthy, or does what the walk on the stream does, a data error being an
exit with `EX_DATAERR`. -/
theorem walk_agree (dev : Dev) :
    ∀ (fuel : Nat) (f : In_file) (nc nf : Nat),
      (¬ dev.healthy ∧ dev.walk fuel f nc nf = some (.error ⟨EX_IOERR, .IoFailure⟩)) ∨
        match walk fuel f nc nf with
        | none => dev.walk fuel f nc nf = none
        | some (.ok r) => dev.walk fuel f nc nf = some (.ok r)
        | some (.error e) =>
          dev.walk fuel f nc nf = some (.error ⟨EX_DATAERR, e⟩) ∧ e.isData := by
  intro fuel
  induction fuel with
  | zero =>
    intro f nc nf
    exact Or.inr rfl
  | succ fuel ih =>
    intro f nc nf
    rw [walk, Dev.walk]
    rcases more_agree dev f with ⟨hbad, hm⟩ | hm
    · left
      rw [hm]
      exact ⟨hbad, rfl⟩
    · simp only at hm
      rw [hm]
      rcases hfm : f.more with ⟨b, f1⟩
      cases b with
      | false => exact Or.inr rfl
      | true =>
        simp only
        rcases loop_body_agree dev f1 nc nf with ⟨hbad, hl⟩ | hl
        · left
          rw [hl]
          exact ⟨hbad, rfl⟩
        · cases hlb : loop_body f1 nc nf with
          | error e =>
            rw [hlb] at hl
            simp only at hl
            rw [hl.1]
            exact Or.inr ⟨rfl, hl.2⟩
          | ok r =>
            rw [hlb] at hl
            simp only at hl
            rw [hl]
            obtain ⟨f2, a, b⟩ := r
            exact ih f2 a b

theorem dev_sup_count_forced_total (dev : Dev) (bytes : List Byte) :
    ∃ r, dev.sup_count_forced (In_file.open bytes) = some r := by
  unfold Dev.sup_count_forced
  rcases walk_agree dev ((In_file.open bytes).content.length + 1) (In_file.open bytes) 0 0 with
    ⟨_, h⟩ | h
  · exact ⟨_, h⟩
  · obtain ⟨r, hr⟩ := sup_count_forced_total bytes
    unfold sup_count_forced at hr
    rw [hr] at h
    cases r with
    | ok v => exact ⟨_, h⟩
    | error e => exact ⟨_, h.1⟩

/-- An exit out of `sup_count_forced` is `EX_IOERR` for a device failure or
`EX_DATAERR` for a data error. -/
theorem dev_sup_count_forced_exit (dev : Dev) (f : In_file) (x : Exit)
    (h : dev.sup_count_forced f = some (.error x)) :
    x = ⟨EX_IOERR, .IoFailure⟩ ∨ (x.status = EX_DATAERR ∧ x.cause.isData) := by
  unfold Dev.sup_count_forced at h
  rcases walk_agree dev (f.content.length + 1) f 0 0 with ⟨_, h2⟩ | h2
  · rw [h2] at h
    simp only [Option.some.injEq, Except.error.injEq] at h
    exact Or.inl h.symm
  · cases hw : walk (f.content.length + 1) f 0 0 with
    | none =>
      rw [hw] at h2
      simp only at h2
      rw [h2] at h
      cases h
    | some r =>
      rw [hw] at h2
      cases r with
      | ok v =>
        simp only at h2
        rw [h2] at h
        cases h
      | error e =>
        simp only at h2
        rw [h2.1] at h
        simp only [Option.some.injEq, Except.error.injEq] at h
        right
        rw [← h]
        exact ⟨rfl, h2.2⟩

theorem In_file_ctor_ok (fs : String → Option (Dev × List Byte)) (name : String)
    (dev : Dev) (f : In_file) (h : In_file.In_file fs name = .ok (dev, f)) :
    ∃ bytes, f = In_file.open bytes := by
  unfold In_file.In_file at h
  cases hfs : fs name with
  | none =>
    rw [hfs] at h
    cases h
  | some v =>
    obtain ⟨d, bytes⟩ := v
    rw [hfs] at h
    simp only [Except.ok.injEq, Prod.mk.injEq] at h
    exact ⟨bytes, h.2.symm⟩

theorem In_file_ctor_exit (fs : String → Option (Dev × List Byte)) (name : String)
    (x : Exit) (h : In_file.In_file fs name = .error x) :
    x = ⟨EX_NOINPUT, .InputUnavailable⟩ := by
  unfold In_file.In_file at h
  cases hfs : fs name with
  | none =>
    rw [hfs] at h
    simp only [error, Except.error.injEq] at h
    exact h.symm
  | some v =>
    rw [hfs] at h
    cases h

theorem main_files_total (fs : String → Option (Dev × List Byte)) :
    ∀ args : List String, ∃ r, main_files fs args = some r := by
  intro args
  induction args with
  | nil => exact ⟨_, rfl⟩
  | cons name rest ih =>
    rw [main_files]
    cases hc : In_file.In_file fs name with
    | error x => exact ⟨_, rfl⟩
    | ok v =>
      obtain ⟨dev, f⟩ := v
      obtain ⟨bytes, hb⟩ := In_file_ctor_ok fs name dev f hc
      subst hb
      obtain ⟨r, hr⟩ := dev_sup_count_forced_total dev bytes
      simp only [hr]
      cases r with
      | error x => exact ⟨_, rfl⟩
      | ok v =>
        obtain ⟨r2, hr2⟩ := ih
        rw [hr2]
        exact ⟨_, rfl⟩

theorem main_files_exit (fs : String → Option (Dev × List Byte)) :
    ∀ (args lines : List String) (x : Exit), main_files fs args = some (lines, some x) →
      x = ⟨EX_NOINPUT, .InputUnavailable⟩ ∨ x = ⟨EX_IOERR, .IoFailure⟩ ∨
        (x.status = EX_DATAERR ∧ x.cause.isData) := by
  intro args
  induction args with
  | nil =>
    intro lines x h
    simp [main_files] at h
  | cons name rest ih =>
    intro lines x h
    rw [main_files] at h
    cases hc : In_file.In_file fs name with
    | error x0 =>
      rw [hc] at h
      simp only [Option.some.injEq, Prod.mk.injEq] at h
      rw [← h.2]
      exact Or.inl (In_file_ctor_exit fs name x0 hc)
    | ok v =>
      obtain ⟨dev, f⟩ := v
      rw [hc] at h
      simp only at h
      cases hs : dev.sup_count_forced f with
      | none =>
        rw [hs] at h
        cases h
      | some r =>
        rw [hs] at h
        cases r with
        | error x1 =>
          simp only [Option.some.injEq, Prod.mk.injEq] at h
          rw [← h.2]
          exact Or.inr (dev_sup_count_forced_exit dev f x1 hs)
        | ok v =>
          simp only at h
          cases hm : main_files fs rest with
          | none =>
            rw [hm] at h
            cases h
          | some r2 =>
            obtain ⟨ls, x2⟩ := r2
            rw [hm] at h
            simp only [Option.some.injEq, Prod.mk.injEq] at h
            rw [h.2] at hm
            exact ih ls x hm

theorem main_exit (fs : String → Option (Dev × List Byte)) (stdin : Dev × List Byte)
    (args lines : List String) (x : Exit) (h : main fs stdin args = some (lines, some x)) :
    x = ⟨EX_NOINPUT, .InputUnavailable⟩ ∨ x = ⟨EX_IOERR, .IoFailure⟩ ∨
      (x.status = EX_DATAERR ∧ x.cause.isData) := by
  unfold main at h
  by_cases ha : args ≠ []
  · simp only [ha, ne_eq, not_false_eq_true, if_true] at h
    exact main_files_exit fs args lines x h
  · simp only [ha, if_false] at h
    cases hs : stdin.1.sup_count_forced (In_file.open stdin.2) with
    | none =>
      rw [hs] at h
      cases h
    | some r =>
      rw [hs] at h
      cases r with
      | error x1 =>
        simp only [Option.some.injEq, Prod.mk.injEq] at h
        rw [← h.2]
        exact Or.inr (dev_sup_count_forced_exit _ _ x1 hs)
      | ok v =>
        simp only [Option.some.injEq, Prod.mk.injEq] at h
        cases h.2

theorem main_total (fs : String → Option (Dev × List Byte)) (stdin : Dev × List Byte)
    (args : List String) : ∃ r, main fs stdin args = some r := by
  unfold main
  by_cases ha : args ≠ []
  · simp only [ha, ne_eq, not_false_eq_true, if_true]
    exact main_files_total fs args
  · simp only [ha, if_false]
    obtain ⟨r, hr⟩ := dev_sup_count_forced_total stdin.1 stdin.2
    rw [hr]
    cases r with
    | error x => exact ⟨_, rfl⟩
    | ok v => exact ⟨_, rfl⟩

/-- The kinds and statuses an exit of `main` can have. -/
theorem main_exit_kinds (fs : String → Option (Dev × List Byte)) (stdin : Dev × List Byte)
    (args lines : List String) (x : Exit) (h : main fs stdin args = some (lines, some x)) :
    (x.cause = .InputUnavailable ∧ x.status = 66) ∨
      (x.cause = .IoFailure ∧ x.status = 74) ∨
      (x.cause = .TruncatedStream ∧ x.status = 65) ∨
      (∃ b a o, x.cause = .MalformedData b a o ∧ x.status = 65) := by
  rcases main_exit fs stdin args lines x h with h1 | h1 | ⟨h1, h2⟩
  · subst h1
    exact Or.inl ⟨rfl, rfl⟩
  · subst h1
    exact Or.inr (Or.inl ⟨rfl, rfl⟩)
  · rcases h2 with h2 | ⟨b, a, o, h2⟩
    · exact Or.inr (Or.inr (Or.inl ⟨h2, h1⟩))
    · exact Or.inr (Or.inr (Or.inr ⟨b, a, o, h2, h1⟩))

/-! ## The claims -/

/-- C1: on every stream on which `sup_count_forced` finishes without error, the
reported object count is the sum of the sprite count bytes of the segments of
type `0x16` on the walker's path, and the reported forced count is the number of
sprite records with flag byte `0x40` among the `sprite_count` records that
follow each of their composition records. -/
theorem C1_counts_match_spec (bytes : List Byte) (n_forced n_comp : Nat)
    (h : sup_count_forced (In_file.open bytes) = some (.ok (n_forced, n_comp))) :
    n_comp = specTotal bytes ∧ n_forced = specForced bytes := by
  have h2 := walk_counts bytes bytes.length 0 0 0 (n_forced, n_comp) h
  simpa [specTotal, specForced, pcsStarts] using h2

theorem C1_counts_match_spec_witness :
    sup_count_forced (In_file.open scenarioExample) = some (.ok (1, 2)) ∧
      (2 = specTotal scenarioExample ∧ 1 = specForced scenarioExample) :=
  ⟨by decide, C1_counts_match_spec scenarioExample 1 2 (by decide)⟩

/-- C2: on every stream on which `sup_count_forced` finishes without error, the
forced count it reports is at most the object count it reports. -/
theorem C2_forced_le_total (bytes : List Byte) (n_forced n_comp : Nat)
    (h : sup_count_forced (In_file.open bytes) = some (.ok (n_forced, n_comp))) :
    n_forced ≤ n_comp :=
  walk_forced_le bytes _ 0 0 0 (n_forced, n_comp) (Nat.le_refl 0) h

theorem C2_forced_le_total_witness :
    sup_count_forced (In_file.open scenarioExample) = some (.ok (1, 2)) ∧ 1 ≤ 2 :=
  ⟨by decide, C2_forced_le_total scenarioExample 1 2 (by decide)⟩

/-- C3 (counterexample): a stream of the scenario laid out with sprite records
of 17 bytes (body 45 = 11 + 17 * 2, first flag `0x40` at byte 27, second flag
`0x00` at byte 44) whose second record has window id `0x40`: the decoder reads
its 16-byte second record from byte 40 on and takes byte 43 for the flag, and
the run prints `2 2`. -/
theorem C3_spec_layout_prints_2_2 :
    SpecScenarioStream specScenarioExample ∧
      sup_count_forced (In_file.open specScenarioExample) = some (.ok (2, 2)) ∧
      output_line (2, 2) = "2 2\n" := by
  unfold SpecScenarioStream
  decide

/-- C3 (amended): for the stream made of one PCS segment (type `0x16`, sprite
count 2, two sprite records of 16 bytes each, first sprite flag `0x40`, second
sprite flag `0x00`, body size 45 or any other size from 43 = 11 + 16 * 2 on, the
bytes after the records belonging to no record) followed by one END segment
(type `0x80`, body size 0), `sup_count_forced` succeeds with forced count 1 and
object count 2, printed in that order as `1 2`, whatever the other bytes are. -/
theorem C3_scenario_prints_1_2 (s : Nat) (bytes : List Byte)
    (h : DecodedScenarioStream s bytes) :
    sup_count_forced (In_file.open bytes) = some (.ok (1, 2)) ∧
      output_line (1, 2) = "1 2\n" := by
  obtain ⟨hs, hlen, h0, ht0, hs0, hcnt, hf1, hf2, hend, ht1, hs1⟩ := h
  refine ⟨?_, by decide⟩
  have efuel : bytes.length + 1 = (bytes.length - 2) + 1 + 1 + 1 := by omega
  have fc : forcedCount bytes (0 + 24) 2 = 1 := by
    rw [forcedCount_succ, forcedCount_succ]
    simp [hf1, hf2, forcedCount]
  have hp0 : 0 < bytes.length := by omega
  have hrec : 0 + 24 + 16 * 2 ≤ bytes.length := by omega
  have hp1 : 0 + 13 + s < bytes.length := by omega
  have e13 : 0 + 13 + s = 13 + s := by omega
  have hne : ¬ byteAt bytes (13 + s + 10) = 0x16 := by
    rw [ht1]
    decide
  unfold sup_count_forced In_file.open
  simp only [efuel]
  rw [walk_succ, loop_body_of_headerOk bytes 0 0 0 h0]
  simp only [Nat.zero_add] at fc hrec hp1 e13 ⊢
  simp only [hp0, ht0, hcnt, hrec, hs0, fc, if_true]
  rw [walk_succ, loop_body_of_headerOk bytes (13 + s) 2 1 hend]
  simp only [hp1, hne, hs1, if_true, if_false]
  rw [walk_succ_end]
  omega

theorem C3_scenario_prints_1_2_witness :
    DecodedScenarioStream 45 scenarioExample ∧
      (sup_count_forced (In_file.open scenarioExample) = some (.ok (1, 2)) ∧
        output_line (1, 2) = "1 2\n") ∧
      DecodedScenarioStream 43 scenario43Example ∧
      sup_count_forced (In_file.open scenario43Example) = some (.ok (1, 2)) :=
  ⟨by unfold DecodedScenarioStream; decide,
    C3_scenario_prints_1_2 45 scenarioExample (by unfold DecodedScenarioStream; decide),
    by unfold DecodedScenarioStream; decide,
    (C3_scenario_prints_1_2 43 scenario43Example
      (by unfold DecodedScenarioStream; decide)).1⟩

/-- C4 (counterexample): a valid stream whose last segment, an END segment,
declares and holds a body of 5 bytes; with its last 5 bytes removed the declared
body is not backed by any byte, and the run still finishes cleanly with `0 0`. -/
theorem C4_skipped_body_truncation_undetected :
    ValidStream endWithBodyExample ∧
      0 + 13 + u16At endWithBodyExample 11 = endWithBodyExample.length ∧
      5 ≤ u16At endWithBodyExample 11 ∧
      sup_count_forced (In_file.open (endWithBodyExample.take (endWithBodyExample.length - 5))) =
        some (.ok (0, 0)) := by
  decide

/-- C4 (amended): truncation is detected where the walker decodes.  For every
valid stream whose last segment is a PCS segment with fewer than 5 bytes of body
after its composition and sprite records, the stream without its last 5 bytes
makes `sup_count_forced` fail with TruncatedStream, so that no counters are
reported; and whenever the loop is at a PCS segment whose header is complete
and whose `11 + 16 * sprite_count` record bytes are not all in the stream, the
walk fails with TruncatedStream. -/
theorem C4_truncation_inside_records :
    (∀ (c : List Byte) (q : Nat), ValidStream c → q ∈ segmentStarts c c.length 0 →
      q + 13 + u16At c (q + 11) = c.length → byteAt c (q + 10) = 0x16 →
      u16At c (q + 11) < 11 + 16 * byteAt c (q + 23) + 5 →
      sup_count_forced (In_file.open (c.take (c.length - 5))) =
        some (.error .TruncatedStream)) ∧
    (∀ (c : List Byte) (p nc nf fuel : Nat), HeaderOk c p → byteAt c (p + 10) = 0x16 →
      c.length < p + 24 + 16 * byteAt c (p + 23) →
      walk (fuel + 1) ⟨c, p, none⟩ nc nf = some (.error .TruncatedStream)) := by
  constructor
  · intro c q hv hq hlast hty hsz
    obtain ⟨r, hr⟩ := sup_count_forced_total (c.take (c.length - 5))
    have h1 := walk_take_truncated c q hlast hty hsz c.length 0 0 0 hv hq
      ((c.take (c.length - 5)).length + 1 + c.length) (by omega)
    have h2 : walk ((c.take (c.length - 5)).length + 1 + c.length)
        ⟨c.take (c.length - 5), 0, none⟩ 0 0 = some r := walk_mono _ r _ 0 0 0 hr c.length
    rw [h1] at h2
    rw [hr, ← h2]
  · intro c p nc nf fuel hh hty hshort
    have hp : p < c.length := by
      have := hh.1
      omega
    have hcond : ¬ p + 24 + 16 * byteAt c (p + 23) ≤ c.length := by omega
    rw [walk_succ, loop_body_of_headerOk c p nc nf hh]
    simp only [hp, hty, hcond, if_true, if_false]

theorem C4_truncation_inside_records_witness :
    ValidStream pcsOnlyExample ∧
      sup_count_forced (In_file.open (pcsOnlyExample.take (pcsOnlyExample.length - 5))) =
        some (.error .TruncatedStream) ∧
      walk 1 ⟨pcsOnlyExample.take 30, 0, none⟩ 0 0 = some (.error .TruncatedStream) :=
  ⟨by decide,
    C4_truncation_inside_records.1 pcsOnlyExample 0 (by decide) (by decide) (by decide)
      (by decide) (by decide),
    C4_truncation_inside_records.2 (pcsOnlyExample.take 30) 0 0 0 0 (by decide) (by decide)
      (by decide)⟩

/-- C5 (the code differs): for every stream whose first byte differs from
`0x50`, `sup_count_forced` fails with MalformedData carrying the expected byte
`0x50` and the actual first byte, but the offset it reports is 1, the position
after the mismatching byte, not the offset 0 of that byte. -/
theorem C5_first_byte_mismatch (b : Byte) (rest : List Byte) (hb : b.val ≠ 0x50) :
    sup_count_forced (In_file.open (b :: rest)) =
      some (.error (.MalformedData 0x50 b.val 1)) := by
  unfold sup_count_forced In_file.open
  rw [walk_succ]
  have hlen : 0 < (b :: rest).length := by simp
  have hb0 : byteAt (b :: rest) 0 = b.val := by simp [byteAt]
  have e : Segment.Segment ⟨b :: rest, 0, none⟩ = .error (.MalformedData 0x50 b.val 1) := by
    rw [Segment_at]
    have h1 : 0 + 1 ≤ (b :: rest).length := hlen
    simp only [h1, hb0, hb, if_true, if_false]
  simp only [hlen, if_true, loop_body, e]

theorem C5_first_byte_mismatch_witness :
    (0x51 : Byte).val ≠ 0x50 ∧
      sup_count_forced (In_file.open [0x51, 0x47]) =
        some (.error (.MalformedData 0x50 0x51 1)) :=
  ⟨by decide, C5_first_byte_mismatch 0x51 [0x47] (by decide)⟩

/-- C6: for a PCS segment whose declared body size is larger than
`11 + 17 * sprite_count` and whose body is fully present, the loop iteration
succeeds and leaves the reader, with no byte pushed back, at exactly
`header_end + body_size`, where the walk goes on; the bytes between the end of
the sprite records and that offset are read by nothing: changing them changes
neither the new position nor the counters. -/
theorem C6_resync_after_padded_pcs (c : List Byte) (p nc nf : Nat)
    (seg : Segment) (f1 : In_file) (pcs : PCS) (f2 : In_file)
    (hseg : Segment.Segment ⟨c, p, none⟩ = .ok (seg, f1))
    (htype : seg.type = Segment.Type_PCS)
    (hpcs : PCS.PCS f1 = .ok (pcs, f2))
    (hpad : 11 + 17 * pcs.sprite_cnt < seg.size)
    (hbody : f1.pos + seg.size ≤ c.length) :
    (In_file.more ⟨c, p, none⟩).1 = true ∧
      loop_body (In_file.more ⟨c, p, none⟩).2 nc nf =
        .ok (⟨c, f1.pos + seg.size, none⟩, nc + pcs.sprite_cnt,
          nf + forcedCount c f2.pos pcs.sprite_cnt) ∧
      In_file.pos ⟨c, f1.pos + seg.size, none⟩ = f1.pos + seg.size ∧
      (∀ fuel, walk (fuel + 1) ⟨c, p, none⟩ nc nf =
        walk fuel ⟨c, f1.pos + seg.size, none⟩ (nc + pcs.sprite_cnt)
          (nf + forcedCount c f2.pos pcs.sprite_cnt)) ∧
      (∀ c2 : List Byte, c2.length = c.length →
        (∀ i, i < f2.pos + 16 * pcs.sprite_cnt ∨ f1.pos + seg.size ≤ i →
          byteAt c2 i = byteAt c i) →
        loop_body (In_file.more ⟨c2, p, none⟩).2 nc nf =
          .ok (⟨c2, f1.pos + seg.size, none⟩, nc + pcs.sprite_cnt,
            nf + forcedCount c f2.pos pcs.sprite_cnt)) := by
  obtain ⟨hh, hs, hf1⟩ := Segment_ok_inv c p seg f1 hseg
  subst hf1
  have hty : byteAt c (p + 10) = 0x16 := by
    rw [hs] at htype
    exact htype
  have hsz : seg.size = u16At c (p + 11) := by rw [hs]; rfl
  have hpos1 : In_file.pos ⟨c, p + 13, none⟩ = p + 13 := rfl
  rw [hpos1] at hbody ⊢
  rw [PCS_at] at hpcs
  have h24 : p + 13 + 11 ≤ c.length := by omega
  simp only [h24, if_true, Except.ok.injEq, Prod.mk.injEq] at hpcs
  obtain ⟨hp1, hp2⟩ := hpcs
  subst hp2
  have hcnt : pcs.sprite_cnt = byteAt c (p + 23) := by rw [← hp1]
  have hpos2 : In_file.pos ⟨c, p + 13 + 11, none⟩ = p + 24 := rfl
  rw [hpos2, hcnt, hsz]
  rw [hcnt, hsz] at hpad
  have hp : p < c.length := by omega
  have hrec : p + 24 + 16 * byteAt c (p + 23) ≤ c.length := by omega
  have hbodyeq : loop_body ⟨c, p, none⟩ nc nf =
      .ok (⟨c, p + 13 + u16At c (p + 11), none⟩, nc + byteAt c (p + 23),
        nf + forcedCount c (p + 24) (byteAt c (p + 23))) := by
    rw [loop_body_of_headerOk c p nc nf hh]
    simp only [hty, hrec, if_true]
  refine ⟨?_, ?_, rfl, ?_, ?_⟩
  · rw [more_at]
    simp only [hp, dite_true]
  · rw [more_at]
    simp only [hp, dite_true, loop_body_after_more, hbodyeq]
  · intro fuel
    rw [walk_succ]
    simp only [hp, if_true, hbodyeq]
  · intro c2 hlen hagree
    have hp2 : p < c2.length := by omega
    have hh2 : HeaderOk c2 p :=
      headerOk_congr c2 c p hlen (fun i hi => hagree i (Or.inl (by omega))) hh
    have e10 := hagree (p + 10) (Or.inl (by omega))
    have e11 := hagree (p + 11) (Or.inl (by omega))
    have e12 := hagree (p + 11 + 1) (Or.inl (by omega))
    have e23 := hagree (p + 23) (Or.inl (by omega))
    have efc := forcedCount_congr c2 c (p + 24) (byteAt c (p + 23))
      (fun i hi => hagree i (Or.inl hi))
    rw [more_at]
    simp only [hp2, dite_true, loop_body_after_more]
    rw [loop_body_of_headerOk c2 p nc nf hh2, e10, e23, u16At_congr c2 c (p + 11) e11 e12, efc,
      hlen]
    simp only [hty, hrec, if_true]

theorem C6_resync_after_padded_pcs_witness :
    Segment.Segment ⟨paddedExample, 0, none⟩ =
        .ok (⟨1, 31, 0x16⟩, ⟨paddedExample, 13, none⟩) ∧
      PCS.PCS ⟨paddedExample, 13, none⟩ =
        .ok (⟨0x780, 0x438, 1, 0x80, 0, 0, 1⟩, ⟨paddedExample, 24, none⟩) ∧
      11 + 17 * 1 < 31 ∧ 13 + 31 ≤ paddedExample.length ∧
      loop_body (In_file.more ⟨paddedExample, 0, none⟩).2 0 0 =
        .ok (⟨paddedExample, 13 + 31, none⟩, 0 + 1, 0 + forcedCount paddedExample 24 1) :=
  ⟨by decide, by decide, by decide, by decide,
    (C6_resync_after_padded_pcs paddedExample 0 0 0 ⟨1, 31, 0x16⟩ ⟨paddedExample, 13, none⟩
      ⟨0x780, 0x438, 1, 0x80, 0, 0, 1⟩ ⟨paddedExample, 24, none⟩
      (by decide) (by decide) (by decide) (by decide) (by decide)).2.1⟩

/-- C7: when the header of a segment decodes at position `p` with a type byte
other than `0x16` and body size `s`, the loop iteration for that segment leaves
the counters alone and the reader at exactly `p + 13 + s`, with no byte pushed
back; this is so for every type byte and every size the header can hold. -/
theorem C7_skip_offset_law (c : List Byte) (p nc nf : Nat) (seg : Segment) (f1 : In_file)
    (hseg : Segment.Segment ⟨c, p, none⟩ = .ok (seg, f1))
    (htype : seg.type ≠ Segment.Type_PCS) :
    (In_file.more ⟨c, p, none⟩).1 = true ∧
      loop_body (In_file.more ⟨c, p, none⟩).2 nc nf =
        .ok (⟨c, p + 13 + seg.size, none⟩, nc, nf) ∧
      In_file.pos ⟨c, p + 13 + seg.size, none⟩ = In_file.pos ⟨c, p, none⟩ + (13 + seg.size) ∧
      seg.type = byteAt c (p + 10) ∧ seg.size = u16At c (p + 11) ∧ seg.size ≤ 65535 := by
  obtain ⟨hh, hs, _⟩ := Segment_ok_inv c p seg f1 hseg
  have hp : p < c.length := by
    have := hh.1
    omega
  have ht : ¬ byteAt c (p + 10) = 0x16 := by
    rw [hs] at htype
    exact htype
  have hsz := u16At_lt c (p + 11)
  rw [more_at]
  simp only [hp, dite_true, loop_body_after_more, loop_body_of_headerOk c p nc nf hh, ht,
    if_false, hs, headerAt, In_file.pos, Option.isSome_none, Bool.false_eq_true, Nat.sub_zero,
    true_and]
  omega

theorem C7_skip_offset_law_witness :
    Segment.Segment ⟨endOnlyExample, 0, none⟩ = .ok (⟨9, 0, 0x80⟩, ⟨endOnlyExample, 13, none⟩) ∧
      (0x80 : Nat) ≠ Segment.Type_PCS ∧
      loop_body (In_file.more ⟨endOnlyExample, 0, none⟩).2 5 3 =
        .ok (⟨endOnlyExample, 0 + 13 + 0, none⟩, 5, 3) :=
  ⟨by decide, by decide,
    (C7_skip_offset_law endOnlyExample 0 5 3 ⟨9, 0, 0x80⟩ ⟨endOnlyExample, 13, none⟩
      (by decide) (by decide)).2.1⟩

/-- C8: on every stream with no segment of type `0x16` on the walker's path on
which the run succeeds, `sup_count_forced` reports forced count 0 and object
count 0 and prints `0 0`; the empty stream is one of them. -/
theorem C8_no_pcs_reports_zero (bytes : List Byte) (r : Nat × Nat)
    (h : sup_count_forced (In_file.open bytes) = some (.ok r))
    (hno : ∀ q ∈ segmentStarts bytes bytes.length 0, byteAt bytes (q + 10) ≠ 0x16) :
    r = (0, 0) ∧ output_line r = "0 0\n" ∧
      sup_count_forced (In_file.open []) = some (.ok (0, 0)) := by
  have h2 := walk_counts bytes bytes.length 0 0 0 r h
  have e : (segmentStarts bytes bytes.length 0).filter
      (fun q => byteAt bytes (q + 10) = 0x16) = [] := by
    rw [List.filter_eq_nil_iff]
    intro q hq
    simpa using hno q hq
  rw [e] at h2
  have hr : r = (0, 0) := by
    obtain ⟨r1, r2⟩ := r
    simp at h2
    simp [h2]
  subst hr
  exact ⟨rfl, by decide, by decide⟩

theorem C8_no_pcs_reports_zero_witness :
    sup_count_forced (In_file.open endOnlyExample) = some (.ok (0, 0)) ∧
      (∀ q ∈ segmentStarts endOnlyExample endOnlyExample.length 0,
        byteAt endOnlyExample (q + 10) ≠ 0x16) ∧
      ((0, 0) = ((0, 0) : Nat × Nat) ∧ output_line (0, 0) = "0 0\n" ∧
        sup_count_forced (In_file.open []) = some (.ok (0, 0))) :=
  ⟨by decide, by decide,
    C8_no_pcs_reports_zero endOnlyExample (0, 0) (by decide) (by decide)⟩

/-- C9 (counterexample): a file with a wrong magic byte and a file that ends
inside the magic both end the process with status 65, `EX_DATAERR`. -/
theorem C9_data_errors_share_status :
    main exampleFs (regular []) ["magic.sup"] =
        some ([], some ⟨65, .MalformedData 0x50 0x51 1⟩) ∧
      main exampleFs (regular []) ["short.sup"] = some ([], some ⟨65, .TruncatedStream⟩) ∧
      exit_status (some ⟨65, .MalformedData 0x50 0x51 1⟩) =
        exit_status (some ⟨65, .TruncatedStream⟩) := by
  decide

/-- C9 (amended): `main` always ends, and whenever it ends in `error` the exit
status is nonzero and fixed by the kind of failure: 66 (`EX_NOINPUT`) for
InputUnavailable, 74 (`EX_IOERR`) for IoFailure, and 65 (`EX_DATAERR`) for both
MalformedData and TruncatedStream.  Two exits with the same status are both
InputUnavailable, both IoFailure, or both data errors.  Each kind occurs: a name
that cannot be opened, a disk whose reads fail, a pipe (which cannot seek), a
wrong magic byte after a good file, a file that ends inside the magic. -/
theorem C9_exit_statuses :
    (∀ (fs : String → Option (Dev × List Byte)) (stdin : Dev × List Byte)
      (args : List String), ∃ r, main fs stdin args = some r) ∧
    (∀ (fs : String → Option (Dev × List Byte)) (stdin : Dev × List Byte)
      (args lines : List String) (x : Exit), main fs stdin args = some (lines, some x) →
      exit_status (some x) ≠ 0 ∧
        ((x.cause = .InputUnavailable ∧ x.status = 66) ∨
          (x.cause = .IoFailure ∧ x.status = 74) ∨
          (x.cause = .TruncatedStream ∧ x.status = 65) ∨
          (∃ b a o, x.cause = .MalformedData b a o ∧ x.status = 65))) ∧
    (∀ (fs1 fs2 : String → Option (Dev × List Byte)) (stdin1 stdin2 : Dev × List Byte)
      (args1 args2 lines1 lines2 : List String) (x y : Exit),
      main fs1 stdin1 args1 = some (lines1, some x) →
      main fs2 stdin2 args2 = some (lines2, some y) → x.status = y.status →
      (x.cause = .InputUnavailable ↔ y.cause = .InputUnavailable) ∧
        (x.cause = .IoFailure ↔ y.cause = .IoFailure)) ∧
    main exampleFs (regular []) ["missing.sup"] = some ([], some ⟨66, .InputUnavailable⟩) ∧
    main exampleFs (regular []) ["bad-disk.sup"] = some ([], some ⟨74, .IoFailure⟩) ∧
    main exampleFs (pipe scenarioExample) [] = some ([], some ⟨74, .IoFailure⟩) ∧
    main exampleFs (regular []) ["good.sup", "magic.sup"] =
      some (["1 2\n"], some ⟨65, .MalformedData 0x50 0x51 1⟩) ∧
    main exampleFs (regular []) ["short.sup"] = some ([], some ⟨65, .TruncatedStream⟩) := by
  refine ⟨main_total, ?_, ?_, by decide, by decide, by decide, by decide, by decide⟩
  · intro fs stdin args lines x h
    have hk := main_exit_kinds fs stdin args lines x h
    refine ⟨?_, hk⟩
    simp only [exit_status]
    rcases hk with ⟨_, h2⟩ | ⟨_, h2⟩ | ⟨_, h2⟩ | ⟨_, _, _, _, h2⟩ <;> omega
  · intro fs1 fs2 stdin1 stdin2 args1 args2 lines1 lines2 x y hx hy hxy
    have hkx := main_exit_kinds fs1 stdin1 args1 lines1 x hx
    have hky := main_exit_kinds fs2 stdin2 args2 lines2 y hy
    rcases hkx with ⟨c1, s1⟩ | ⟨c1, s1⟩ | ⟨c1, s1⟩ | ⟨_, _, _, c1, s1⟩ <;>
      rcases hky with ⟨c2, s2⟩ | ⟨c2, s2⟩ | ⟨c2, s2⟩ | ⟨_, _, _, c2, s2⟩ <;>
      first
        | (exfalso; omega)
        | simp [c1, c2]

theorem C9_exit_statuses_witness :
    main exampleFs (pipe []) ["good.sup", "bad-disk.sup", "good.sup"] =
        some (["1 2\n"], some ⟨74, .IoFailure⟩) ∧
      exit_status (some ⟨74, .IoFailure⟩) ≠ 0 :=
  ⟨by decide,
    (C9_exit_statuses.2.1 exampleFs (pipe []) ["good.sup", "bad-disk.sup", "good.sup"]
      ["1 2\n"] ⟨74, .IoFailure⟩ (by decide)).1⟩

/-- C10: for a reader at position `p` of a stream, `read_u1`, `read_u2` and
`read_u4` succeed exactly when at least 1, 2 and 4 bytes remain at `p`; they
then return the byte at `p`, the big-endian value of the 2 bytes at `p` and the
big-endian value of the 4 bytes at `p`, and leave the reader at `p + 1`, `p + 2`
and `p + 4`; with fewer bytes left they fail with TruncatedStream. -/
theorem C10_big_endian_readers (f : In_file) (hwf : f.wf) :
    f.read_u1 =
      (if f.pos + 1 ≤ f.content.length then
        .ok (byteAt f.content f.pos, ⟨f.content, f.pos + 1, none⟩)
      else .error .TruncatedStream) ∧
    f.read_u2 =
      (if f.pos + 2 ≤ f.content.length then
        .ok (byteAt f.content f.pos * 256 + byteAt f.content (f.pos + 1),
          ⟨f.content, f.pos + 2, none⟩)
      else .error .TruncatedStream) ∧
    f.read_u4 =
      (if f.pos + 4 ≤ f.content.length then
        .ok (byteAt f.content f.pos * 2 ^ 24 + byteAt f.content (f.pos + 1) * 2 ^ 16 +
          byteAt f.content (f.pos + 2) * 2 ^ 8 + byteAt f.content (f.pos + 3),
          ⟨f.content, f.pos + 4, none⟩)
      else .error .TruncatedStream) := by
  refine ⟨?_, ?_, ?_⟩
  · rw [read_u1_wf f hwf, read_u1_at]
    rfl
  · rw [read_u2_wf f hwf, read_u2_at]
    rfl
  · rw [read_u4_wf f hwf, read_u4_at]
    rfl

theorem C10_big_endian_readers_witness :
    In_file.wf ⟨scenarioExample, 3, some 0⟩ ∧
      In_file.read_u4 ⟨scenarioExample, 3, some 0⟩ =
        .ok (0 * 2 ^ 24 + 1 * 2 ^ 16 + 2 * 2 ^ 8 + 3, ⟨scenarioExample, 6, none⟩) :=
  ⟨by intro b hb; cases hb; decide,
    (C10_big_endian_readers ⟨scenarioExample, 3, some 0⟩
      (by intro b hb; cases hb; decide)).2.2⟩

/-- C11: for a reader at position `p` with at least 13 bytes left of which the
first two are `0x50 0x47`, `Segment::Segment` succeeds, leaves the reader at
exactly `p + 13`, sets `type` to the byte at `p + 10` whatever its value, `size`
to the big-endian 16-bit value at `p + 11` and `time` to the big-endian 32-bit
value at `p + 2`; the bytes at `p + 6 .. p + 9` do not affect the result. -/
theorem C11_segment_header_decoder (f : In_file) (hwf : f.wf)
    (h13 : f.pos + 13 ≤ f.content.length)
    (hP : byteAt f.content f.pos = 0x50) (hG : byteAt f.content (f.pos + 1) = 0x47) :
    Segment.Segment f =
        .ok (⟨u32At f.content (f.pos + 2), u16At f.content (f.pos + 11),
          byteAt f.content (f.pos + 10)⟩, ⟨f.content, f.pos + 13, none⟩) ∧
      In_file.pos ⟨f.content, f.pos + 13, none⟩ = f.pos + 13 ∧
      (∀ c2 : List Byte, c2.length = f.content.length →
        (∀ i, i < f.pos + 6 ∨ f.pos + 10 ≤ i → byteAt c2 i = byteAt f.content i) →
        Segment.Segment ⟨c2, f.pos, none⟩ =
          .ok (⟨u32At f.content (f.pos + 2), u16At f.content (f.pos + 11),
            byteAt f.content (f.pos + 10)⟩, ⟨c2, f.pos + 13, none⟩)) := by
  have hh : HeaderOk f.content f.pos := ⟨h13, hP, hG⟩
  refine ⟨?_, rfl, ?_⟩
  · rw [Segment_wf f hwf, Segment_of_headerOk _ _ hh]
    rfl
  · intro c2 hlen hagree
    have hh2 : HeaderOk c2 f.pos :=
      ⟨by omega, by rw [hagree _ (Or.inl (by omega))]; exact hP,
        by rw [hagree _ (Or.inl (by omega))]; exact hG⟩
    rw [Segment_of_headerOk _ _ hh2]
    unfold headerAt
    rw [u32At_congr c2 f.content (f.pos + 2) (hagree _ (Or.inl (by omega)))
        (hagree _ (Or.inl (by omega))) (hagree _ (Or.inl (by omega)))
        (hagree _ (Or.inl (by omega))),
      u16At_congr c2 f.content (f.pos + 11) (hagree _ (Or.inr (by omega)))
        (hagree _ (Or.inr (by omega))),
      hagree (f.pos + 10) (Or.inr (by omega))]

theorem C11_segment_header_decoder_witness :
    In_file.wf ⟨scenarioExample, 1, some 0x50⟩ ∧
      Segment.Segment ⟨scenarioExample, 1, some 0x50⟩ =
        .ok (⟨0x00010203, 45, 0x16⟩, ⟨scenarioExample, 13, none⟩) :=
  ⟨by intro b hb; cases hb; decide,
    (C11_segment_header_decoder ⟨scenarioExample, 1, some 0x50⟩
      (by intro b hb; cases hb; decide) (by decide) (by decide) (by decide)).1⟩

/-- C12: for a reader at position `p` with at least 11 bytes left, `PCS::PCS`
succeeds whatever the bytes are, consumes exactly 11 bytes, and sets `width` and
`height` to the big-endian 16-bit values at `p` and `p + 2`, `comp_id` to the
one at `p + 5`, `state`, `palette_upd`, `palette_id` and `sprite_cnt` to the
bytes at `p + 7`, `p + 8`, `p + 9` and `p + 10`.  A PCS segment with sprite
count 0 therefore adds 0 to both counters, and the reader stands right after
the 11-byte composition record when the walker seeks. -/
theorem C12_composition_decoder :
    (∀ f : In_file, f.wf → f.pos + 11 ≤ f.content.length →
      PCS.PCS f =
        .ok (⟨u16At f.content f.pos, u16At f.content (f.pos + 2), u16At f.content (f.pos + 5),
          byteAt f.content (f.pos + 7), byteAt f.content (f.pos + 8),
          byteAt f.content (f.pos + 9), byteAt f.content (f.pos + 10)⟩,
          ⟨f.content, f.pos + 11, none⟩)) ∧
    (∀ (c : List Byte) (p nc nf : Nat) (seg : Segment) (f1 : In_file) (pcs : PCS)
      (f2 : In_file),
      Segment.Segment ⟨c, p, none⟩ = .ok (seg, f1) → seg.type = Segment.Type_PCS →
      PCS.PCS f1 = .ok (pcs, f2) → pcs.sprite_cnt = 0 →
      f2.pos = f1.pos + 11 ∧
        sprite_loop pcs.sprite_cnt f2 nf = .ok (nf, f2) ∧
        loop_body (In_file.more ⟨c, p, none⟩).2 nc nf =
          .ok (⟨c, f1.pos + seg.size, none⟩, nc + 0, nf + 0)) := by
  constructor
  · intro f hwf h11
    rw [PCS_wf f hwf, PCS_at]
    simp only [h11, if_true]
  · intro c p nc nf seg f1 pcs f2 hseg htype hpcs hcnt
    obtain ⟨hh, hs, hf1⟩ := Segment_ok_inv c p seg f1 hseg
    subst hf1
    have hty : byteAt c (p + 10) = 0x16 := by
      rw [hs] at htype
      exact htype
    rw [PCS_at] at hpcs
    by_cases h24 : p + 13 + 11 ≤ c.length
    · simp only [h24, if_true, Except.ok.injEq, Prod.mk.injEq] at hpcs
      obtain ⟨hp1, hp2⟩ := hpcs
      subst hp2
      have hc0 : byteAt c (p + 23) = 0 := by
        rw [← hcnt, ← hp1]
      have hp : p < c.length := by omega
      have hrec : p + 24 + 16 * 0 ≤ c.length := by omega
      refine ⟨rfl, ?_, ?_⟩
      · rw [hcnt]
        rfl
      · rw [more_at]
        simp only [hp, dite_true, loop_body_after_more, loop_body_of_headerOk c p nc nf hh, hty,
          hrec, if_true, hc0, hs, headerAt, In_file.pos, Option.isSome_none, Bool.false_eq_true,
          if_false, Nat.sub_zero, forcedCount, List.range_zero, List.filter_nil,
          List.length_nil]
    · simp only [h24, if_false] at hpcs
      cases hpcs

theorem C12_composition_decoder_witness :
    In_file.wf ⟨emptyPcsExample, 13, none⟩ ∧
      PCS.PCS ⟨emptyPcsExample, 13, none⟩ =
        .ok (⟨0x780, 0x438, 1, 0x80, 0, 0, 0⟩, ⟨emptyPcsExample, 24, none⟩) ∧
      loop_body (In_file.more ⟨emptyPcsExample, 0, none⟩).2 4 2 =
        .ok (⟨emptyPcsExample, 13 + 11, none⟩, 4 + 0, 2 + 0) :=
  ⟨wf_of_none _ _,
    C12_composition_decoder.1 ⟨emptyPcsExample, 13, none⟩ (wf_of_none _ _) (by decide),
    (C12_composition_decoder.2 emptyPcsExample 0 4 2 ⟨1, 11, 0x16⟩
      ⟨emptyPcsExample, 13, none⟩ ⟨0x780, 0x438, 1, 0x80, 0, 0, 0⟩ ⟨emptyPcsExample, 24, none⟩
      (by decide) (by decide) (by decide) (by decide)).2.2⟩

/-- C13 (counterexample): with exactly 16 bytes left `Sprite::Sprite` succeeds,
and with 17 bytes left it leaves the reader at offset 16, not 17. -/
theorem C13_sprite_record_is_16_bytes :
    sprite16Example.length = 16 ∧
      Sprite.Sprite ⟨sprite16Example, 0, none⟩ =
        .ok (⟨7, 1, 0x40, 10, 20, 30, 40, 50, 60⟩, ⟨sprite16Example, 16, none⟩) ∧
      sprite17Example.length = 17 ∧
      Sprite.Sprite ⟨sprite17Example, 0, none⟩ =
        .ok (⟨7, 1, 0x40, 10, 20, 30, 40, 50, 60⟩, ⟨sprite17Example, 16, none⟩) := by
  decide

/-- C13 (amended): for a reader at position `p` with at least 16 bytes left,
`Sprite::Sprite` succeeds whatever the bytes are, consumes exactly 16 bytes, and
sets `obj_id` to the big-endian 16-bit value at `p`, `window_id` and `flag` to
the bytes at `p + 2` and `p + 3`, and `tgt_hpos`, `tgt_vpos`, `src_hpos`,
`src_vpos`, `width`, `height` to the big-endian 16-bit values at `p + 4`,
`p + 6`, `p + 8`, `p + 10`, `p + 12`, `p + 14`; with fewer than 16 bytes left it
fails with TruncatedStream. -/
theorem C13_sprite_decoder (f : In_file) (hwf : f.wf) :
    Sprite.Sprite f =
      if f.pos + 16 ≤ f.content.length then
        .ok (⟨u16At f.content f.pos, byteAt f.content (f.pos + 2), byteAt f.content (f.pos + 3),
          u16At f.content (f.pos + 4), u16At f.content (f.pos + 6), u16At f.content (f.pos + 8),
          u16At f.content (f.pos + 10), u16At f.content (f.pos + 12),
          u16At f.content (f.pos + 14)⟩, ⟨f.content, f.pos + 16, none⟩)
      else .error .TruncatedStream := by
  rw [Sprite_wf f hwf, Sprite_at]

theorem C13_sprite_decoder_witness :
    In_file.wf ⟨scenarioExample, 24, none⟩ ∧
      Sprite.Sprite ⟨scenarioExample, 24, none⟩ =
        .ok (⟨0, 0, 0x40, 10, 20, 0, 0, 100, 50⟩, ⟨scenarioExample, 40, none⟩) :=
  ⟨wf_of_none _ _,
    (C13_sprite_decoder ⟨scenarioExample, 24, none⟩ (wf_of_none _ _)).trans (by decide)⟩

/-- C14 (counterexample): two decoded sprite records with flag bytes `0x41` and
`0xC0`, both with bit `0x40` set, and a forced count of 0. -/
theorem C14_bit_flags_not_counted :
    decodedFlags bitFlagExample = [0x41, 0xC0] ∧
      0x41 &&& 0x40 ≠ 0 ∧ 0xC0 &&& 0x40 ≠ 0 ∧
      sup_count_forced (In_file.open bitFlagExample) = some (.ok (0, 2)) := by
  decide

/-- C14 (amended): a forced object is a sprite whose flag byte equals `0x40`.
On every successfully walked stream the forced count is the number of decoded
sprite records whose flag byte is exactly `0x40`, so every such record is
counted and no record with any other flag byte is; the object count is the
number of decoded records. -/
theorem C14_forced_is_flag_equal_0x40 (bytes : List Byte) (n_forced n_comp : Nat)
    (h : sup_count_forced (In_file.open bytes) = some (.ok (n_forced, n_comp))) :
    n_forced = (decodedFlags bytes).count 0x40 ∧ n_comp = (decodedFlags bytes).length := by
  have h2 := walk_counts bytes bytes.length 0 0 0 (n_forced, n_comp) h
  simp only [Nat.zero_add] at h2
  obtain ⟨hc, hf⟩ := h2
  constructor
  · rw [hf, decodedFlags, List.count_flatMap, pcsStarts]
    congr 1
    apply List.map_congr_left
    intro q _
    simp only [Function.comp, count_range_map, forcedCount]
  · rw [hc, decodedFlags, List.length_flatMap, pcsStarts]
    congr 1
    apply List.map_congr_left
    intro q _
    simp

theorem C14_forced_is_flag_equal_0x40_witness :
    sup_count_forced (In_file.open scenarioExample) = some (.ok (1, 2)) ∧
      (1 = (decodedFlags scenarioExample).count 0x40 ∧ 2 = (decodedFlags scenarioExample).length) :=
  ⟨by decide, C14_forced_is_flag_equal_0x40 scenarioExample 1 2 (by decide)⟩

/-- C15: `more` does not consume.  For every reader state at position `p` of a
stream of length `n` it answers true exactly when `p < n`; the state it leaves
has the same position and gives the same result (byte and next state) to the
next `getc`, hence to every later read, and to a seek; calling it again gives
the same answer and the same state; after a seek to or past the end it answers
false. -/
theorem C15_more_does_not_consume (f : In_file) (hwf : f.wf) :
    (In_file.more f).1 = decide (f.pos < f.content.length) ∧
      In_file.wf (In_file.more f).2 ∧
      (In_file.more f).2.content = f.content ∧
      (In_file.more f).2.pos = f.pos ∧
      In_file.get_char (In_file.more f).2 = In_file.get_char f ∧
      In_file.read_u1 (In_file.more f).2 = In_file.read_u1 f ∧
      In_file.read_u2 (In_file.more f).2 = In_file.read_u2 f ∧
      In_file.read_u4 (In_file.more f).2 = In_file.read_u4 f ∧
      (∀ o, In_file.pos_set (In_file.more f).2 o = In_file.pos_set f o) ∧
      In_file.more (In_file.more f).2 = In_file.more f ∧
      (∀ o, f.content.length ≤ o →
        In_file.more (In_file.pos_set f o) = (false, In_file.pos_set f o)) := by
  have hg := get_char_more f hwf
  have h1 : In_file.read_u1 (In_file.more f).2 = In_file.read_u1 f := by
    unfold In_file.read_u1
    rw [hg]
  have h2 : In_file.read_u2 (In_file.more f).2 = In_file.read_u2 f := by
    unfold In_file.read_u2
    rw [h1]
  have h4 : In_file.read_u4 (In_file.more f).2 = In_file.read_u4 f := by
    unfold In_file.read_u4
    rw [h2]
  have hm : In_file.more (In_file.more f).2 = In_file.more f := by
    rw [In_file.more, hg]
    rfl
  have hseek : ∀ o, f.content.length ≤ o →
      In_file.more (In_file.pos_set f o) = (false, In_file.pos_set f o) := by
    intro o ho
    unfold In_file.pos_set
    rw [more_at]
    simp only [Nat.not_lt.mpr ho, dite_false]
  refine ⟨?_, ?_, ?_, ?_, hg, h1, h2, h4, ?_, hm, hseek⟩
  all_goals obtain ⟨c, o, pu⟩ := f
  all_goals cases pu with
    | some b =>
      obtain ⟨hb1, hb2⟩ := hwf b rfl
      simp only at hb1 hb2
      have hlt : o - 1 < c.length := by
        by_contra hn
        rw [List.getElem?_eq_none (Nat.le_of_not_lt hn)] at hb2
        cases hb2
      first
        | (intro b2 hb3
           simp only [In_file.more, In_file.get_char, In_file.ungetc, Option.some.injEq] at hb3
           subst hb3
           exact ⟨hb1, hb2⟩)
        | simp [In_file.more, In_file.get_char, In_file.ungetc, In_file.pos, In_file.pos_set, hlt]
    | none =>
      by_cases h : o < c.length
      · first
          | (intro b2 hb3
             simp only [In_file.more, In_file.get_char, In_file.ungetc, h,
               List.getElem?_eq_getElem, Option.some.injEq] at hb3
             subst hb3
             simp [In_file.more, In_file.get_char, In_file.ungetc, h, List.getElem?_eq_getElem])
          | simp [In_file.more, In_file.get_char, In_file.ungetc, In_file.pos, In_file.pos_set, h,
              List.getElem?_eq_getElem]
      · first
          | (intro b2 hb3
             simp [In_file.more, In_file.get_char, In_file.ungetc,
               List.getElem?_eq_none (Nat.le_of_not_lt h)] at hb3)
          | simp [In_file.more, In_file.get_char, In_file.ungetc, In_file.pos, In_file.pos_set, h,
              List.getElem?_eq_none (Nat.le_of_not_lt h)]

theorem C15_more_does_not_consume_witness :
    In_file.wf ⟨endOnlyExample, 0, none⟩ ∧
      In_file.more ⟨endOnlyExample, 0, none⟩ = (true, ⟨endOnlyExample, 1, some 0x50⟩) ∧
      In_file.get_char (In_file.more ⟨endOnlyExample, 0, none⟩).2 =
        In_file.get_char ⟨endOnlyExample, 0, none⟩ :=
  ⟨wf_of_none _ _, by decide,
    (C15_more_does_not_consume ⟨endOnlyExample, 0, none⟩ (wf_of_none _ _)).2.2.2.2.1⟩

/-- C16 (counterexample): two streams of equal length that differ only in byte
27, which lies inside the declared body of a segment of type `0x01` reached by
the walker, with different forced counts: the byte is also the flag byte of a
sprite record decoded for the preceding PCS segment, which declares an empty
body. -/
theorem C16_skipped_body_read_as_record :
    (overlapExample.set 27 0x40).length = overlapExample.length ∧
      inSkippedBody overlapExample (visited overlapExample) 27 ∧
      sup_count_forced (In_file.open overlapExample) = some (.ok (0, 1)) ∧
      sup_count_forced (In_file.open (overlapExample.set 27 0x40)) = some (.ok (1, 1)) := by
  decide

/-- C16 (amended): two streams of equal length that differ only in bytes that
lie inside the declared body of a segment with a type byte other than `0x16`
reached by the walker, and outside the composition and sprite records decoded
for the PCS segments it reaches, give the same outcome of `sup_count_forced`:
the same counters or the same error. -/
theorem C16_skipped_bodies_not_interpreted (c1 c2 : List Byte)
    (hlen : c1.length = c2.length)
    (hdiff : ∀ i, byteAt c1 i ≠ byteAt c2 i →
      inSkippedBody c1 (visited c1) i ∧ ¬ inDecodedRecords c1 (visited c1) i) :
    sup_count_forced (In_file.open c1) = sup_count_forced (In_file.open c2) := by
  unfold sup_count_forced In_file.open
  simp only [← hlen]
  exact walk_congr c1 c2 hlen _ 0 0 0 (fun i _ hne => hdiff i hne)

theorem C16_skipped_bodies_not_interpreted_witness :
    endWithBodyExample.length = (endWithBodyExample.set 15 0xaa).length ∧
      sup_count_forced (In_file.open endWithBodyExample) =
        sup_count_forced (In_file.open (endWithBodyExample.set 15 0xaa)) :=
  ⟨by decide,
    C16_skipped_bodies_not_interpreted endWithBodyExample (endWithBodyExample.set 15 0xaa)
      (by decide)
      (fun i hne => by
        by_cases h : i = 15
        · subst h
          decide
        · exact absurd (byteAt_set_ne endWithBodyExample i 15 0xaa h).symm hne)⟩

/-- C17 (counterexample): a segment of type `0x16` with sprite count 1 followed
by 27 bytes, fewer than `11 + 17 * 1`, on which the run succeeds. -/
theorem C17_sixteen_byte_records_suffice :
    HeaderOk pcsOnlyExample 0 ∧ byteAt pcsOnlyExample 10 = 0x16 ∧
      byteAt pcsOnlyExample 23 = 1 ∧
      pcsOnlyExample.length - 13 < 11 + 17 * 1 ∧
      sup_count_forced (In_file.open pcsOnlyExample) = some (.ok (1, 1)) := by
  decide

/-- C17 (amended): short reads inside decoded fields abort the run.  At a
segment boundary `p` with between 1 and 12 bytes left that agree with `"PG"` as
far as they go, the walk fails with TruncatedStream; at a segment of type `0x16`
with a complete header followed by fewer than `11 + 16 * sprite_count` bytes,
the walk fails with TruncatedStream; with two bytes present at the boundary that
are not `"PG"`, the walk fails with MalformedData.  Each of these results is an
error, so no counters are reported. -/
theorem C17_short_reads_abort :
    (∀ (c : List Byte) (p nc nf fuel : Nat), p < c.length → c.length < p + 13 →
      byteAt c p = 0x50 → (p + 2 ≤ c.length → byteAt c (p + 1) = 0x47) →
      walk (fuel + 1) ⟨c, p, none⟩ nc nf = some (.error .TruncatedStream)) ∧
    (∀ (c : List Byte) (p nc nf fuel : Nat), HeaderOk c p → byteAt c (p + 10) = 0x16 →
      c.length - (p + 13) < 11 + 16 * byteAt c (p + 23) →
      walk (fuel + 1) ⟨c, p, none⟩ nc nf = some (.error .TruncatedStream)) ∧
    (∀ (c : List Byte) (p nc nf fuel : Nat), p + 2 ≤ c.length →
      ¬ (byteAt c p = 0x50 ∧ byteAt c (p + 1) = 0x47) →
      walk (fuel + 1) ⟨c, p, none⟩ nc nf =
        some (.error (if byteAt c p = 0x50 then .MalformedData 0x47 (byteAt c (p + 1)) (p + 2)
          else .MalformedData 0x50 (byteAt c p) (p + 1)))) := by
  refine ⟨?_, ?_, ?_⟩
  · intro c p nc nf fuel hp hshort hP hG
    have e : Segment.Segment ⟨c, p, none⟩ = .error .TruncatedStream := by
      rw [Segment_at]
      have h1 : p + 1 ≤ c.length := hp
      have h13 : ¬ p + 13 ≤ c.length := by omega
      by_cases h2 : p + 2 ≤ c.length
      · simp only [h1, hP, h2, hG h2, h13, if_true, if_false]
      · simp only [h1, hP, h2, if_true, if_false]
    rw [walk_succ, loop_body_of_segment_error _ nc nf _ e]
    simp only [hp, if_true]
  · intro c p nc nf fuel hh hty hshort
    have hp : p < c.length := by
      have := hh.1
      omega
    have hcond : ¬ p + 24 + 16 * byteAt c (p + 23) ≤ c.length := by omega
    rw [walk_succ, loop_body_of_headerOk c p nc nf hh]
    simp only [hp, hty, hcond, if_true, if_false]
  · intro c p nc nf fuel h2 hne
    have hp : p < c.length := by omega
    have h1 : p + 1 ≤ c.length := hp
    have e : Segment.Segment ⟨c, p, none⟩ =
        .error (if byteAt c p = 0x50 then .MalformedData 0x47 (byteAt c (p + 1)) (p + 2)
          else .MalformedData 0x50 (byteAt c p) (p + 1)) := by
      rw [Segment_at]
      by_cases hP : byteAt c p = 0x50
      · have hG : ¬ byteAt c (p + 1) = 0x47 := fun hG => hne ⟨hP, hG⟩
        simp only [h1, hP, h2, hG, if_true, if_false]
      · simp only [h1, hP, if_true, if_false]
    rw [walk_succ, loop_body_of_segment_error _ nc nf _ e]
    simp only [hp, if_true]

theorem C17_short_reads_abort_witness :
    walk 1 ⟨endOnlyExample.take 7, 0, none⟩ 0 0 = some (.error .TruncatedStream) ∧
      walk 1 ⟨pcsOnlyExample.take 39, 0, none⟩ 0 0 = some (.error .TruncatedStream) ∧
      walk 1 ⟨scenarioExample, 2, none⟩ 0 0 =
        some (.error (if byteAt scenarioExample 2 = 0x50
          then .MalformedData 0x47 (byteAt scenarioExample (2 + 1)) (2 + 2)
          else .MalformedData 0x50 (byteAt scenarioExample 2) (2 + 1))) :=
  ⟨C17_short_reads_abort.1 (endOnlyExample.take 7) 0 0 0 0 (by decide) (by decide) (by decide)
      (by decide),
    C17_short_reads_abort.2.1 (pcsOnlyExample.take 39) 0 0 0 0 (by decide) (by decide)
      (by decide),
    C17_short_reads_abort.2.2 scenarioExample 2 0 0 0 (by decide) (by decide)⟩

/-- C18: the walker seeks to `header_end + body_size` after every segment.  For
every segment whose header decodes at position `p` (and, for a PCS segment,
whose records are present), the iteration succeeds and the walk goes on at
position `p + 13 + body_size` with no byte pushed back, also when that offset is
beyond the end of the stream; at an offset at or beyond the end every read fails
with TruncatedStream, `more` answers false and the walk ends with the
counters. -/
theorem C18_unconditional_seek (c : List Byte) (p nc nf : Nat) (hh : HeaderOk c p)
    (hrec : byteAt c (p + 10) = 0x16 → p + 24 + 16 * byteAt c (p + 23) ≤ c.length) :
    ∃ nc2 nf2,
      loop_body (In_file.more ⟨c, p, none⟩).2 nc nf =
        .ok (⟨c, p + 13 + u16At c (p + 11), none⟩, nc2, nf2) ∧
      In_file.pos ⟨c, p + 13 + u16At c (p + 11), none⟩ = p + 13 + u16At c (p + 11) ∧
      (∀ fuel, walk (fuel + 1) ⟨c, p, none⟩ nc nf =
        walk fuel ⟨c, p + 13 + u16At c (p + 11), none⟩ nc2 nf2) ∧
      (c.length ≤ p + 13 + u16At c (p + 11) →
        In_file.read_u1 ⟨c, p + 13 + u16At c (p + 11), none⟩ = .error .TruncatedStream ∧
        In_file.read_u2 ⟨c, p + 13 + u16At c (p + 11), none⟩ = .error .TruncatedStream ∧
        In_file.read_u4 ⟨c, p + 13 + u16At c (p + 11), none⟩ = .error .TruncatedStream ∧
        (In_file.more ⟨c, p + 13 + u16At c (p + 11), none⟩).1 = false ∧
        ∀ fuel, walk (fuel + 1) ⟨c, p + 13 + u16At c (p + 11), none⟩ nc2 nf2 =
          some (.ok (nf2, nc2))) := by
  have hp : p < c.length := by
    have := hh.1
    omega
  have hpast : c.length ≤ p + 13 + u16At c (p + 11) →
      In_file.read_u1 ⟨c, p + 13 + u16At c (p + 11), none⟩ = .error .TruncatedStream ∧
      In_file.read_u2 ⟨c, p + 13 + u16At c (p + 11), none⟩ = .error .TruncatedStream ∧
      In_file.read_u4 ⟨c, p + 13 + u16At c (p + 11), none⟩ = .error .TruncatedStream ∧
      (In_file.more ⟨c, p + 13 + u16At c (p + 11), none⟩).1 = false := by
    intro hle
    obtain ⟨r1, r2, r4⟩ := read_past_end c _ hle
    refine ⟨r1, r2, r4, ?_⟩
    rw [more_at]
    simp only [Nat.not_lt.mpr hle, dite_false]
  by_cases ht : byteAt c (p + 10) = 0x16
  · have hr := hrec ht
    have hb : loop_body ⟨c, p, none⟩ nc nf =
        .ok (⟨c, p + 13 + u16At c (p + 11), none⟩, nc + byteAt c (p + 23),
          nf + forcedCount c (p + 24) (byteAt c (p + 23))) := by
      rw [loop_body_of_headerOk c p nc nf hh]
      simp only [ht, hr, if_true]
    refine ⟨nc + byteAt c (p + 23), nf + forcedCount c (p + 24) (byteAt c (p + 23)),
      ?_, rfl, ?_, ?_⟩
    · rw [more_at]
      simp only [hp, dite_true, loop_body_after_more]
      exact hb
    · intro fuel
      rw [walk_succ]
      simp only [hp, if_true, hb]
    · intro hle
      obtain ⟨r1, r2, r4, rm⟩ := hpast hle
      exact ⟨r1, r2, r4, rm, fun fuel => walk_succ_end c fuel _ _ _ hle⟩
  · have hb : loop_body ⟨c, p, none⟩ nc nf =
        .ok (⟨c, p + 13 + u16At c (p + 11), none⟩, nc, nf) := by
      rw [loop_body_of_headerOk c p nc nf hh]
      simp only [ht, if_false]
    refine ⟨nc, nf, ?_, rfl, ?_, ?_⟩
    · rw [more_at]
      simp only [hp, dite_true, loop_body_after_more]
      exact hb
    · intro fuel
      rw [walk_succ]
      simp only [hp, if_true, hb]
    · intro hle
      obtain ⟨r1, r2, r4, rm⟩ := hpast hle
      exact ⟨r1, r2, r4, rm, fun fuel => walk_succ_end c fuel _ _ _ hle⟩

theorem C18_unconditional_seek_witness :
    HeaderOk headerOnlyExample 0 ∧ byteAt headerOnlyExample (0 + 10) ≠ 0x16 ∧
      headerOnlyExample.length < 0 + 13 + u16At headerOnlyExample (0 + 11) ∧
      ∃ nc2 nf2,
        loop_body (In_file.more ⟨headerOnlyExample, 0, none⟩).2 0 0 =
          .ok (⟨headerOnlyExample, 0 + 13 + u16At headerOnlyExample (0 + 11), none⟩, nc2, nf2) :=
  ⟨by decide, by decide, by decide,
    (C18_unconditional_seek headerOnlyExample 0 0 0 (by decide) (by decide)).imp
      (fun _ h => h.imp (fun _ h2 => h2.1))⟩

/-- C19: `sup_count_forced` terminates on every stream, with counters or with an
error.  The loop body is entered at most `ceil(n / 13)` times on a stream of `n`
bytes, and a bound of that many iterations plus the final test of `more` is
never used up; every completed iteration moves the reader from the segment start
`p` to `p + 13 + body_size`, at least `p + 13`, also when the records of a PCS
segment were decoded beyond that offset; and the sprite loop with its 8-bit
index runs exactly `sprite_cnt` times, `sprite_cnt` being at most 255, and ends
with the index equal to `sprite_cnt`, never wrapped. -/
theorem C19_termination :
    (∀ bytes : List Byte, ∃ r,
      sup_count_forced (In_file.open bytes) = some r ∧
      walk ((bytes.length + 12) / 13 + 1) (In_file.open bytes) 0 0 = some r) ∧
    (∀ (bytes : List Byte) (fuel : Nat),
      iterations fuel (In_file.open bytes) 0 0 ≤ (bytes.length + 12) / 13) ∧
    (∀ (c : List Byte) (p nc nf : Nat) (f2 : In_file) (nc2 nf2 : Nat),
      (In_file.more ⟨c, p, none⟩).1 = true →
      loop_body (In_file.more ⟨c, p, none⟩).2 nc nf = .ok (f2, nc2, nf2) →
      f2 = ⟨c, p + 13 + u16At c (p + 11), none⟩ ∧ p + 13 ≤ f2.pos ∧ p < c.length) ∧
    (∀ (f : In_file) (pcs : PCS) (f2 : In_file) (nf : Nat), f.wf →
      PCS.PCS f = .ok (pcs, f2) →
      pcs.sprite_cnt ≤ 255 ∧
        sprite_loop_idx pcs.sprite_cnt (pcs.sprite_cnt + 1) 0 0 f2 nf =
          some (match sprite_loop pcs.sprite_cnt f2 nf with
            | .ok (n, f3) => .ok (n, f3, pcs.sprite_cnt, 0 + pcs.sprite_cnt)
            | .error e => .error e)) := by
  refine ⟨?_, ?_, ?_, ?_⟩
  · intro bytes
    obtain ⟨r, hr⟩ := walk_total13 bytes ((bytes.length + 12) / 13) 0 0 0 (by omega)
    refine ⟨r, ?_, hr⟩
    have h2 := walk_mono bytes r _ 0 0 0 hr (bytes.length - (bytes.length + 12) / 13)
    have e : (bytes.length + 12) / 13 + 1 + (bytes.length - (bytes.length + 12) / 13) =
        bytes.length + 1 := by omega
    rw [e] at h2
    exact h2
  · intro bytes fuel
    have h := iterations_le bytes fuel 0 0 0
    rw [Nat.le_div_iff_mul_le (by decide : 0 < 13), Nat.mul_comm]
    exact h
  · intro c p nc nf f2 nc2 nf2 hmore hbody
    rw [more_at] at hmore hbody
    by_cases hp : p < c.length
    · simp only [hp, dite_true, loop_body_after_more] at hbody
      by_cases hh : HeaderOk c p
      · rw [loop_body_of_headerOk c p nc nf hh] at hbody
        have hf2 : f2 = ⟨c, p + 13 + u16At c (p + 11), none⟩ := by
          split_ifs at hbody
          · simp only [Except.ok.injEq, Prod.mk.injEq] at hbody
            exact hbody.1.symm
          · simp only [Except.ok.injEq, Prod.mk.injEq] at hbody
            exact hbody.1.symm
        subst hf2
        refine ⟨rfl, ?_, hp⟩
        simp only [In_file.pos, Option.isSome_none, Bool.false_eq_true, if_false, Nat.sub_zero]
        omega
      · obtain ⟨e, he⟩ := loop_body_of_not_headerOk c p nc nf hh
        rw [he] at hbody
        cases hbody
    · simp only [hp, dite_false] at hmore
      cases hmore
  · intro f pcs f2 nf hwf hpcs
    rw [PCS_wf f hwf, PCS_at] at hpcs
    have hle : pcs.sprite_cnt ≤ 255 := by
      split_ifs at hpcs
      simp only [Except.ok.injEq, Prod.mk.injEq] at hpcs
      rw [← hpcs.1]
      exact Nat.le_of_lt_succ (byteAt_lt _ _)
    exact ⟨hle, sprite_loop_idx_eq pcs.sprite_cnt hle pcs.sprite_cnt 0 0 f2 nf (by omega)⟩

theorem C19_termination_witness :
    (∃ r, sup_count_forced (In_file.open scenarioExample) = some r ∧
      walk ((scenarioExample.length + 12) / 13 + 1) (In_file.open scenarioExample) 0 0 =
        some r) ∧
      iterations 100 (In_file.open scenarioExample) 0 0 ≤ (scenarioExample.length + 12) / 13 ∧
      13 ≤ In_file.pos ⟨scenarioExample, 58, none⟩ ∧
      (2 ≤ 255 ∧
        sprite_loop_idx 2 (2 + 1) 0 0 ⟨scenarioExample, 24, none⟩ 0 =
          some (match sprite_loop 2 ⟨scenarioExample, 24, none⟩ 0 with
            | .ok (n, f3) => .ok (n, f3, 2, 0 + 2)
            | .error e => .error e)) :=
  ⟨C19_termination.1 scenarioExample, C19_termination.2.1 scenarioExample 100,
    ((C19_termination.2.2.1 scenarioExample 0 0 0 ⟨scenarioExample, 58, none⟩ 2 1
      (by decide) (by decide)).2.1 : 0 + 13 ≤ In_file.pos ⟨scenarioExample, 58, none⟩),
    C19_termination.2.2.2 ⟨scenarioExample, 13, none⟩ ⟨0x780, 0x438, 1, 0x80, 0, 0, 2⟩
      ⟨scenarioExample, 24, none⟩ 0 (wf_of_none _ _) (by decide)⟩

/-- C20 (counterexample): a PCS segment with sprite count 1 and a declared body
of 27 bytes, fewer than `11 + 17 * 1`, with all its records present: after the
records the reader stands at offset 40, and the walker seeks to 40, not
backwards; no byte from its next position on was consumed. -/
theorem C20_not_under_declared_at_16 :
    HeaderOk pcsOnlyExample 0 ∧ byteAt pcsOnlyExample 10 = 0x16 ∧
      u16At pcsOnlyExample 11 < 11 + 17 * byteAt pcsOnlyExample 23 ∧
      sprite_loop 1 ⟨pcsOnlyExample, 24, none⟩ 0 = .ok (1, ⟨pcsOnlyExample, 40, none⟩) ∧
      loop_body (In_file.more ⟨pcsOnlyExample, 0, none⟩).2 0 0 =
        .ok (⟨pcsOnlyExample, 40, none⟩, 1, 1) := by
  decide

/-- C20 (amended): for a PCS segment whose declared body size is smaller than
`11 + 16 * sprite_count` while its composition and sprite records are all
present, the iteration raises no error, adds `sprite_count` to the object count
and the number of decoded records with flag `0x40` to the forced count, and
then seeks backwards from the end of the records to `header_end + body_size`,
where the walk goes on: the next header is decoded from bytes already consumed
as record data. -/
theorem C20_under_declared_pcs_body (c : List Byte) (p nc nf : Nat)
    (seg : Segment) (f1 : In_file) (pcs : PCS) (f2 : In_file)
    (hseg : Segment.Segment ⟨c, p, none⟩ = .ok (seg, f1))
    (htype : seg.type = Segment.Type_PCS)
    (hpcs : PCS.PCS f1 = .ok (pcs, f2))
    (hunder : seg.size < 11 + 16 * pcs.sprite_cnt)
    (hrecs : f2.pos + 16 * pcs.sprite_cnt ≤ c.length) :
    sprite_loop pcs.sprite_cnt f2 nf =
        .ok (nf + forcedCount c f2.pos pcs.sprite_cnt,
          ⟨c, f2.pos + 16 * pcs.sprite_cnt, none⟩) ∧
      loop_body (In_file.more ⟨c, p, none⟩).2 nc nf =
        .ok (⟨c, f1.pos + seg.size, none⟩, nc + pcs.sprite_cnt,
          nf + forcedCount c f2.pos pcs.sprite_cnt) ∧
      f1.pos ≤ f1.pos + seg.size ∧
      f1.pos + seg.size < f2.pos + 16 * pcs.sprite_cnt ∧
      (∀ fuel, walk (fuel + 1) ⟨c, p, none⟩ nc nf =
        walk fuel ⟨c, f1.pos + seg.size, none⟩ (nc + pcs.sprite_cnt)
          (nf + forcedCount c f2.pos pcs.sprite_cnt)) := by
  obtain ⟨hh, hs, hf1⟩ := Segment_ok_inv c p seg f1 hseg
  subst hf1
  have hty : byteAt c (p + 10) = 0x16 := by
    rw [hs] at htype
    exact htype
  have hsz : seg.size = u16At c (p + 11) := by rw [hs]; rfl
  rw [PCS_at] at hpcs
  by_cases h24 : p + 13 + 11 ≤ c.length
  · simp only [h24, if_true, Except.ok.injEq, Prod.mk.injEq] at hpcs
    obtain ⟨hp1, hp2⟩ := hpcs
    subst hp2
    have hcnt : pcs.sprite_cnt = byteAt c (p + 23) := by rw [← hp1]
    have hpos1 : In_file.pos ⟨c, p + 13, none⟩ = p + 13 := rfl
    have hpos2 : In_file.pos ⟨c, p + 13 + 11, none⟩ = p + 24 := rfl
    have e24 : p + 13 + 11 = p + 24 := rfl
    rw [hpos2] at hrecs ⊢
    rw [hpos1, hcnt, hsz, e24]
    rw [hcnt, hsz] at hunder
    rw [hcnt] at hrecs
    have hp : p < c.length := by omega
    have hbodyeq : loop_body ⟨c, p, none⟩ nc nf =
        .ok (⟨c, p + 13 + u16At c (p + 11), none⟩, nc + byteAt c (p + 23),
          nf + forcedCount c (p + 24) (byteAt c (p + 23))) := by
      rw [loop_body_of_headerOk c p nc nf hh]
      simp only [hty, hrecs, if_true]
    refine ⟨?_, ?_, by omega, by omega, ?_⟩
    · rw [sprite_loop_at c _ _ _ (by omega)]
      simp only [hrecs, if_true]
    · rw [more_at]
      simp only [hp, dite_true, loop_body_after_more, hbodyeq]
    · intro fuel
      rw [walk_succ]
      simp only [hp, if_true, hbodyeq]
  · simp only [h24, if_false] at hpcs
    cases hpcs

theorem C20_under_declared_pcs_body_witness :
    Segment.Segment ⟨overlapExample, 0, none⟩ =
        .ok (⟨1, 0, 0x16⟩, ⟨overlapExample, 13, none⟩) ∧
      PCS.PCS ⟨overlapExample, 13, none⟩ =
        .ok (⟨0x5047, 0, 0x200, 0, 0, 2, 1⟩, ⟨overlapExample, 24, none⟩) ∧
      0 < 11 + 16 * 1 ∧ 24 + 16 * 1 ≤ overlapExample.length ∧
      loop_body (In_file.more ⟨overlapExample, 0, none⟩).2 0 0 =
        .ok (⟨overlapExample, 13 + 0, none⟩, 0 + 1, 0 + forcedCount overlapExample 24 1) :=
  ⟨by decide, by decide, by decide, by decide,
    (C20_under_declared_pcs_body overlapExample 0 0 0 ⟨1, 0, 0x16⟩ ⟨overlapExample, 13, none⟩
      ⟨0x5047, 0, 0x200, 0, 0, 2, 1⟩ ⟨overlapExample, 24, none⟩
      (by decide) (by decide) (by decide) (by decide) (by decide)).2.1⟩

end SupCountForced
